import Mathlib

/-!
# Verification of the github-review local draft-review core

This development embeds the core of the `github-review` repository
(`src/app/src-tauri/src/review_storage.rs`, `github.rs`, `lib.rs`) as pure
Lean definitions and proves the specification's claims about them.

Modelling conventions:
* Rust `u64`/`i64`/`i32` values are embedded as `Nat`/`Int`; none of the
  embedded code performs arithmetic close to the word size, so wrap-around
  is irrelevant.
* The SQLite database owned by `ReviewStorage` is embedded as explicit
  lists of rows; the single mutex-guarded connection is embedded as a
  `poisoned` flag on the state (a poisoned mutex makes every operation
  fail, exactly as `self.conn.lock().map_err(...)` does in the source).
* The log directory is embedded as an association list from file name to
  file content (most recent write first), mirroring `fs::write` overwrite
  semantics and `Path::exists` probing.
* Timestamps (`Utc::now().to_rfc3339()`) and network results (the fetched
  PR title, the per-comment submission outcomes) are passed in as explicit
  parameters/oracles.
-/

/-- Fuel-driven digit accumulation; the fuel is structural so that the
kernel can evaluate it. Any fuel larger than `n` gives the digits of `n`. -/
def natReprGo : Nat → Nat → List Char
  | 0, n => [Nat.digitChar n]
  | fuel + 1, n =>
    if n < 10 then [Nat.digitChar n]
    else natReprGo fuel (n / 10) ++ [Nat.digitChar (n % 10)]

/-- `Nat.digitChar` of the decimal digits of `n`, most significant first.
Embeds the decimal rendering used by Rust's `format!("{}", n)` for the
unsigned integers interpolated into file names, labels and messages. -/
def natReprAux (n : Nat) : List Char := natReprGo (n + 1) n

/-- Decimal rendering of a natural number as a string. -/
def natRepr (n : Nat) : String := ⟨natReprAux n⟩

theorem natReprGo_congr : ∀ n f g : Nat, n < f → n < g → natReprGo f n = natReprGo g n := by
  intro n
  induction n using Nat.strong_induction_on with
  | _ n ih =>
    intro f g hf hg
    cases f with
    | zero => omega
    | succ f' =>
      cases g with
      | zero => omega
      | succ g' =>
        by_cases h10 : n < 10
        · simp [natReprGo, h10]
        · simp only [natReprGo, h10, if_neg, if_false]
          have hdiv : n / 10 < n := Nat.div_lt_self (by omega) (by omega)
          rw [ih (n / 10) hdiv f' g' (by omega) (by omega)]

theorem natReprAux_of_lt {n : Nat} (h : n < 10) : natReprAux n = [Nat.digitChar n] := by
  unfold natReprAux
  simp [natReprGo, h]

theorem natReprAux_of_ge {n : Nat} (h : ¬n < 10) :
    natReprAux n = natReprAux (n / 10) ++ [Nat.digitChar (n % 10)] := by
  unfold natReprAux
  have hdiv : n / 10 < n := Nat.div_lt_self (by omega) (by omega)
  simp only [natReprGo, h, if_neg, if_false]
  rw [natReprGo_congr (n / 10) n (n / 10 + 1) (by omega) (by omega), natReprGo]

theorem natReprAux_ne_nil (n : Nat) : natReprAux n ≠ [] := by
  by_cases h : n < 10
  · rw [natReprAux_of_lt h]; simp
  · rw [natReprAux_of_ge h]; simp

theorem digitChar_inj_lt : ∀ a < 10, ∀ b < 10, Nat.digitChar a = Nat.digitChar b → a = b := by
  decide

theorem natReprAux_inj : ∀ m n : Nat, natReprAux m = natReprAux n → m = n := by
  intro m
  induction m using Nat.strong_induction_on with
  | _ m ih =>
    intro n h
    by_cases hm : m < 10 <;> by_cases hn : n < 10
    · rw [natReprAux_of_lt hm, natReprAux_of_lt hn] at h
      exact digitChar_inj_lt m hm n hn (by simpa using h)
    · rw [natReprAux_of_lt hm, natReprAux_of_ge hn] at h
      have hlen := congrArg List.length h
      simp at hlen
      have := natReprAux_ne_nil (n / 10)
      cases hne : natReprAux (n / 10) with
      | nil => exact absurd hne this
      | cons a l => rw [hne] at hlen; simp at hlen
    · rw [natReprAux_of_ge hm, natReprAux_of_lt hn] at h
      have hlen := congrArg List.length h
      simp at hlen
      have := natReprAux_ne_nil (m / 10)
      cases hne : natReprAux (m / 10) with
      | nil => exact absurd hne this
      | cons a l => rw [hne] at hlen; simp at hlen
    · rw [natReprAux_of_ge hm, natReprAux_of_ge hn] at h
      have h2 := List.append_inj' h (by simp)
      obtain ⟨h3, h4⟩ := h2
      have hdiv : m / 10 = n / 10 :=
        ih (m / 10) (Nat.div_lt_self (by omega) (by omega)) (n / 10) h3
      have hmod : m % 10 = n % 10 :=
        digitChar_inj_lt (m % 10) (Nat.mod_lt _ (by omega)) (n % 10)
          (Nat.mod_lt _ (by omega)) (by simpa using h4)
      omega

theorem natRepr_inj : ∀ m n : Nat, natRepr m = natRepr n → m = n := by
  intro m n h
  exact natReprAux_inj m n (congrArg String.data h)

/-- The leading decimal digit of a positive number is never `'0'`. -/
theorem natReprAux_head_ne_zero (n : Nat) (hn : 0 < n) :
    ∀ c cs, natReprAux n = c :: cs → c ≠ '0' := by
  induction n using Nat.strong_induction_on with
  | _ n ih =>
    intro c cs h
    by_cases hlt : n < 10
    · rw [natReprAux_of_lt hlt] at h
      injection h with h1 h2
      rw [← h1]
      interval_cases n <;> decide
    · rw [natReprAux_of_ge hlt] at h
      cases hne : natReprAux (n / 10) with
      | nil => exact absurd hne (natReprAux_ne_nil _)
      | cons a l =>
        rw [hne] at h
        simp only [List.cons_append] at h
        injection h with h1 h2
        have ha : a ≠ '0' :=
          ih (n / 10) (Nat.div_lt_self (by omega) (by omega)) (by omega) a l hne
        rw [← h1]; exact ha

/-- Every character of the decimal rendering is a digit. -/
theorem natReprAux_all_digit (n : Nat) : ∀ c ∈ natReprAux n, c.isDigit := by
  induction n using Nat.strong_induction_on with
  | _ n ih =>
    intro c hc
    by_cases hlt : n < 10
    · rw [natReprAux_of_lt hlt] at hc
      simp at hc
      subst hc
      interval_cases n <;> decide
    · rw [natReprAux_of_ge hlt] at hc
      rw [List.mem_append] at hc
      rcases hc with hc | hc
      · exact ih (n / 10) (Nat.div_lt_self (by omega) (by omega)) c hc
      · simp at hc
        subst hc
        have h10 : n % 10 < 10 := Nat.mod_lt _ (by omega)
        interval_cases h : n % 10 <;> decide

/-! ## Substring occurrence machinery -/

/-- `occursInL w xs` holds when the character list `w` occurs contiguously
inside `xs`. Used to state "the file contains the substring ...". -/
def occursInL (w xs : List Char) : Prop := ∃ pre post, xs = pre ++ w ++ post

/-- String-level substring occurrence. -/
def occursIn (w s : String) : Prop := occursInL w.data s.data

/-- Boolean test of list-prefix, for decidable substring checks. -/
def prefOf : List Char → List Char → Bool
  | [], _ => true
  | _ :: _, [] => false
  | a :: as, b :: bs => a == b && prefOf as bs

/-- Boolean test of contiguous occurrence, for decidable substring checks. -/
def containsL (w : List Char) : List Char → Bool
  | [] => prefOf w []
  | x :: xs => prefOf w (x :: xs) || containsL w xs

theorem prefOf_iff (w : List Char) : ∀ xs, prefOf w xs = true ↔ ∃ post, xs = w ++ post := by
  induction w with
  | nil => intro xs; simp [prefOf]
  | cons a as ih =>
    intro xs
    cases xs with
    | nil => simp [prefOf]
    | cons b bs =>
      simp only [prefOf, Bool.and_eq_true, beq_iff_eq, ih]
      constructor
      · rintro ⟨rfl, post, rfl⟩; exact ⟨post, rfl⟩
      · rintro ⟨post, h⟩
        injection h with h1 h2
        exact ⟨h1.symm, post, h2⟩

theorem containsL_iff (w : List Char) : ∀ xs, containsL w xs = true ↔ occursInL w xs := by
  intro xs
  induction xs with
  | nil =>
    simp only [containsL, prefOf_iff, occursInL]
    constructor
    · rintro ⟨post, h⟩; exact ⟨[], post, by simpa using h⟩
    · rintro ⟨pre, post, h⟩
      refine ⟨post, ?_⟩
      have h1 : pre = [] := by
        cases pre with
        | nil => rfl
        | cons p ps => simp at h
      subst h1; simpa using h
  | cons x xs ih =>
    simp only [containsL, Bool.or_eq_true, prefOf_iff, ih, occursInL]
    constructor
    · rintro (⟨post, h⟩ | ⟨pre, post, h⟩)
      · exact ⟨[], post, by simpa using h⟩
      · exact ⟨x :: pre, post, by simp [h]⟩
    · rintro ⟨pre, post, h⟩
      cases pre with
      | nil => exact Or.inl ⟨post, by simpa using h⟩
      | cons p ps =>
        injection h with h1 h2
        exact Or.inr ⟨ps, post, h2⟩

theorem occursInL_append_left {w xs : List Char} (ys : List Char) (h : occursInL w xs) :
    occursInL w (xs ++ ys) := by
  obtain ⟨pre, post, rfl⟩ := h
  exact ⟨pre, post ++ ys, by simp⟩

theorem occursInL_append_right {w ys : List Char} (xs : List Char) (h : occursInL w ys) :
    occursInL w (xs ++ ys) := by
  obtain ⟨pre, post, rfl⟩ := h
  exact ⟨xs ++ pre, post, by simp⟩

theorem occursInL_self (w post : List Char) : occursInL w (w ++ post) :=
  ⟨[], post, rfl⟩

theorem occursInL_trans {v w xs : List Char} (h1 : occursInL v w) (h2 : occursInL w xs) :
    occursInL v xs := by
  obtain ⟨p1, q1, rfl⟩ := h1
  obtain ⟨p2, q2, rfl⟩ := h2
  exact ⟨p2 ++ p1, q1 ++ q2, by simp⟩

theorem string_data_append (a b : String) : (a ++ b).data = a.data ++ b.data := rfl

theorem occursIn_of_append (w pre post : String) : occursIn w (pre ++ w ++ post) := by
  unfold occursIn
  rw [string_data_append, string_data_append]
  exact ⟨pre.data, post.data, rfl⟩

theorem occursIn_append_left {w a : String} (b : String) (h : occursIn w a) :
    occursIn w (a ++ b) := occursInL_append_left b.data h

theorem occursIn_append_right {w b : String} (a : String) (h : occursIn w b) :
    occursIn w (a ++ b) := occursInL_append_right a.data h

theorem occursIn_trans {v w s : String} (h1 : occursIn v w) (h2 : occursIn w s) :
    occursIn v s := occursInL_trans h1 h2

theorem occursIn_self_left (w post : String) : occursIn w (w ++ post) := by
  unfold occursIn
  rw [string_data_append]
  exact occursInL_self w.data post.data

/-- Decidability of substring occurrence via the boolean test. -/
instance (w s : String) : Decidable (occursIn w s) :=
  decidable_of_iff (containsL w.data s.data = true) (containsL_iff _ _)

/-- ASCII lower-casing of a character, mirroring Rust's `u8::to_ascii_lowercase`. -/
def asciiLower (c : Char) : Char :=
  if 'A' ≤ c ∧ c ≤ 'Z' then Char.ofNat (c.toNat + 32) else c

/-- String comparison mirroring Rust's `str::eq_ignore_ascii_case`. -/
def eqIgnoreAsciiCase (a b : String) : Bool :=
  a.data.map asciiLower == b.data.map asciiLower

/-! ## Character-list string helpers

The embedding implements the string operations the Rust code uses directly
on `List Char` by structural recursion, so that every definition evaluates
inside the kernel. Each helper's doc comment names the Rust operation it
embeds. -/

/-- Embeds `str::starts_with(pat)` for a string pattern. -/
def startsWithL (s pat : String) : Bool := prefOf pat.data s.data

/-- Embeds `str::ends_with(pat)` for a string pattern. -/
def endsWithL (s pat : String) : Bool := prefOf pat.data.reverse s.data.reverse

/-- Splitting on a non-empty separator, scanning left to right without
overlap; the fuel is structural and any fuel at least the input length
behaves like Rust's `str::split(sep)` (which this embeds, together with
`String.splitOn`). -/
def splitSepGo (sep : List Char) : Nat → List Char → List Char → List (List Char)
  | 0, acc, rest => [acc.reverse ++ rest]
  | fuel + 1, acc, rest =>
    match rest with
    | [] => [acc.reverse]
    | x :: xs =>
      if prefOf sep rest then
        acc.reverse :: splitSepGo sep fuel [] (rest.drop sep.length)
      else splitSepGo sep fuel (x :: acc) xs

/-- Embeds Rust's `str::split(sep)` for a non-empty string separator. -/
def splitSep (s sep : String) : List (List Char) :=
  splitSepGo sep.data (s.data.length + 1) [] s.data

/-- Embeds Rust's `str::lines()`: split on newline, where a final newline
does not produce a trailing empty line, and a trailing carriage return is
stripped from each line. -/
def rustLines (s : String) : List String :=
  if s.data = [] then []
  else
    let parts := splitSep s "\n"
    let parts := if endsWithL s "\n" then parts.dropLast else parts
    parts.map (fun l =>
      if prefOf ['\r'] l.reverse then ⟨l.dropLast⟩ else (⟨l⟩ : String))

/-- Embeds Rust's `str::trim()` (ASCII whitespace; the diff headers this is
applied to contain no Unicode whitespace). -/
def trimL (xs : List Char) : List Char :=
  ((xs.dropWhile Char.isWhitespace).reverse.dropWhile Char.isWhitespace).reverse

/-- Embeds Rust's `str::split_whitespace()`: split on maximal whitespace
runs, producing no empty pieces. -/
def splitWhitespaceL (xs : List Char) : List (List Char) :=
  (xs.splitOnP Char.isWhitespace).filter (· ≠ [])

/-- Embeds Rust's `str::parse::<u64>()`: an optional leading `'+'`, then at
least one decimal digit, rejecting values that overflow 64 bits. -/
def parseU64 (s : List Char) : Option Nat :=
  let t := if prefOf ['+'] s then s.drop 1 else s
  if t ≠ [] ∧ t.all Char.isDigit then
    let v := t.foldl (fun a c => a * 10 + (c.toNat - 48)) 0
    if v < 2 ^ 64 then some v else none
  else none

/-! ## DiffPositionResolver (github.rs: convert_diff_position_to_line, parse_hunk_header) -/

/-- Embeds `parse_hunk_header` (github.rs:1184): extracts the two starting
line numbers from a `@@ -L,C +L',C' @@` hunk header. -/
def parse_hunk_header (line : String) : Option (Nat × Nat) :=
  match splitSep line "@@" with
  | _ :: header :: _ =>
    match splitWhitespaceL (trimL header) with
    | leftSide :: rightSide :: _ =>
      match parseU64 (((leftSide.dropWhile (· == '-')).splitOnP (· == ',')).headD []) with
      | none => none
      | some leftStart =>
        match parseU64 (((rightSide.dropWhile (· == '+')).splitOnP (· == ',')).headD []) with
        | none => none
        | some rightStart => some (leftStart, rightStart)
    | _ => none
  | _ => none

/-- The scanning loop of `convert_diff_position_to_line` (github.rs:1143):
`pos` is the running position counter, `leftLine`/`rightLine` the current
base/head line counters. -/
def convertLoop (position : Nat) (side : String) :
    List String → Nat → Nat → Nat → Option Nat
  | [], _, _, _ => none
  | line :: rest, pos, leftLine, rightLine =>
    if startsWithL line "@@" then
      match parse_hunk_header line with
      | some header => convertLoop position side rest pos header.1 header.2
      | none => convertLoop position side rest pos leftLine rightLine
    else
      if startsWithL line "-" then
        if pos + 1 = position ∧ side = "LEFT" then some leftLine
        else convertLoop position side rest (pos + 1) (leftLine + 1) rightLine
      else if startsWithL line "+" then
        if pos + 1 = position ∧ side = "RIGHT" then some rightLine
        else convertLoop position side rest (pos + 1) leftLine (rightLine + 1)
      else
        if pos + 1 = position then
          some (if side = "LEFT" then leftLine else rightLine)
        else convertLoop position side rest (pos + 1) (leftLine + 1) (rightLine + 1)

/-- Embeds `convert_diff_position_to_line` (github.rs:1138). -/
def convert_diff_position_to_line (patch : String) (position : Nat) (side : String) :
    Option Nat :=
  convertLoop position side (rustLines patch) 0 0 0

/-- Modelled from the claim's words: on a hunk header the two running
counters reset to the header's start values (an unparseable header line
leaves them alone, and consumes no position either way). -/
def specReset (line : String) (lr : Nat × Nat) : Nat × Nat :=
  match parse_hunk_header line with
  | some header => header
  | none => lr

/-- Modelled from the claim's words: a deletion line advances the source
counter, an addition line the target counter, a context line both. -/
def specAdvance (line : String) (lr : Nat × Nat) : Nat × Nat :=
  if startsWithL line "-" then (lr.1 + 1, lr.2)
  else if startsWithL line "+" then (lr.1, lr.2 + 1)
  else (lr.1 + 1, lr.2 + 1)

/-- Modelled from the claim's words: the line that consumes the requested
position resolves to the source counter for a deletion (only on the source
side), the target counter for an addition (only on the target side), and
either counter for a context line. -/
def specResolveAt (line : String) (side : String) (lr : Nat × Nat) : Option Nat :=
  if startsWithL line "-" then if side = "LEFT" then some lr.1 else none
  else if startsWithL line "+" then if side = "RIGHT" then some lr.2 else none
  else some (if side = "LEFT" then lr.1 else lr.2)

/-- Modelled from the claim's words: scan the lines; a header resets the
counters and consumes no position; every non-header line consumes exactly
one position (`remaining` counts down from the requested position); when
the remaining count hits 1 the current line resolves; if it never does,
the result is nothing. -/
def specScan (side : String) : List String → Nat → Nat × Nat → Option Nat
  | [], _, _ => none
  | line :: rest, remaining, lr =>
    if startsWithL line "@@" then specScan side rest remaining (specReset line lr)
    else if remaining = 1 then specResolveAt line side lr
    else specScan side rest (remaining - 1) (specAdvance line lr)

/-- Modelled from the claim's words: the whole resolver. -/
def specResolvePosition (patch : String) (position : Nat) (side : String) : Option Nat :=
  specScan side (rustLines patch) position (0, 0)

theorem convertLoop_of_ge (position : Nat) (side : String) :
    ∀ lines pos leftLine rightLine, position ≤ pos →
      convertLoop position side lines pos leftLine rightLine = none := by
  intro lines
  induction lines with
  | nil => intro pos l r h; rfl
  | cons line rest ih =>
    intro pos l r h
    unfold convertLoop
    by_cases hh : startsWithL line "@@" = true
    · simp only [hh, if_true]
      cases parse_hunk_header line with
      | none => exact ih pos l r h
      | some header => exact ih pos header.1 header.2 h
    · simp only [hh, if_false, Bool.false_eq_true]
      have hne : ¬(pos + 1 = position) := by omega
      by_cases h1 : startsWithL line "-" = true
      · simp only [h1, if_true]
        rw [if_neg (by tauto)]
        exact ih (pos + 1) (l + 1) r (by omega)
      · simp only [h1, if_false, Bool.false_eq_true]
        by_cases h2 : startsWithL line "+" = true
        · simp only [h2, if_true]
          rw [if_neg (by tauto)]
          exact ih (pos + 1) l (r + 1) (by omega)
        · simp only [h2, if_false, Bool.false_eq_true]
          rw [if_neg hne]
          exact ih (pos + 1) (l + 1) (r + 1) (by omega)

theorem specScan_zero (side : String) :
    ∀ lines lr, specScan side lines 0 lr = none := by
  intro lines
  induction lines with
  | nil => intro lr; rfl
  | cons line rest ih =>
    intro lr
    unfold specScan
    by_cases hh : startsWithL line "@@" = true
    · simp only [hh, if_true]; exact ih _
    · simp only [hh, if_false, Bool.false_eq_true]
      rw [if_neg (by omega)]
      exact ih _

theorem convertLoop_eq_specScan (position : Nat) (side : String) :
    ∀ lines pos leftLine rightLine, pos < position →
      convertLoop position side lines pos leftLine rightLine =
        specScan side lines (position - pos) (leftLine, rightLine) := by
  intro lines
  induction lines with
  | nil => intro pos l r h; rfl
  | cons line rest ih =>
    intro pos l r h
    unfold convertLoop specScan
    by_cases hh : startsWithL line "@@" = true
    · simp only [hh, if_true, specReset]
      cases parse_hunk_header line with
      | none => exact ih pos l r h
      | some header => exact ih pos header.1 header.2 h
    · simp only [hh, if_false, Bool.false_eq_true]
      by_cases hpos : pos + 1 = position
      · have hrem : position - pos = 1 := by omega
        rw [hrem]
        simp only [if_pos rfl, specResolveAt]
        by_cases h1 : startsWithL line "-" = true
        · simp only [h1, if_true]
          by_cases hs : side = "LEFT"
          · rw [if_pos ⟨hpos, hs⟩, if_pos hs]
          · rw [if_neg (by tauto), if_neg hs]
            exact convertLoop_of_ge position side rest (pos + 1) (l + 1) r (by omega)
        · simp only [h1, if_false, Bool.false_eq_true]
          by_cases h2 : startsWithL line "+" = true
          · simp only [h2, if_true]
            by_cases hs : side = "RIGHT"
            · rw [if_pos ⟨hpos, hs⟩, if_pos hs]
            · rw [if_neg (by tauto), if_neg hs]
              exact convertLoop_of_ge position side rest (pos + 1) l (r + 1) (by omega)
          · simp only [h2, if_false, Bool.false_eq_true]
            rw [if_pos hpos]
            simp
      · have hrem : position - pos ≠ 1 := by omega
        rw [if_neg hrem]
        have hlt : pos + 1 < position := by omega
        have hsub : position - pos - 1 = position - (pos + 1) := by omega
        simp only [specAdvance]
        by_cases h1 : startsWithL line "-" = true
        · simp only [h1, if_true]
          rw [if_neg (by tauto), ih (pos + 1) (l + 1) r hlt, hsub]
        · simp only [h1, if_false, Bool.false_eq_true]
          by_cases h2 : startsWithL line "+" = true
          · simp only [h2, if_true]
            rw [if_neg (by tauto), ih (pos + 1) l (r + 1) hlt, hsub]
          · simp only [h2, if_false, Bool.false_eq_true]
            rw [if_neg hpos, ih (pos + 1) (l + 1) (r + 1) hlt, hsub]

/-- C1: `convert_diff_position_to_line` scans the diff lines exactly as the
claim describes — hunk headers reset the two running counters to the
header's start values without consuming a position, every non-header line
consumes exactly one position, deletions resolve only on the source (LEFT)
side, additions only on the target (RIGHT) side, context lines on either
side, and the result is nothing when the position counter never reaches the
requested position (stated as equality with `specResolvePosition`, the
verbatim rendering of the claim's algorithm); moreover on the example diff,
position 3 on the target side resolves to line 3, position 4 on the target
side to line 4, and position 2 on the source side to line 2. -/
theorem diff_position_resolver_correct :
    (∀ patch position side,
      convert_diff_position_to_line patch position side =
        specResolvePosition patch position side)
    ∧ convert_diff_position_to_line
        "@@ -1,3 +1,4 @@\n line1\n line2\n+new\n line3" 3 "RIGHT" = some 3
    ∧ convert_diff_position_to_line
        "@@ -1,3 +1,4 @@\n line1\n line2\n+new\n line3" 4 "RIGHT" = some 4
    ∧ convert_diff_position_to_line
        "@@ -1,3 +1,4 @@\n line1\n line2\n+new\n line3" 2 "LEFT" = some 2 := by
  refine ⟨?_, by decide, by decide, by decide⟩
  intro patch position side
  unfold convert_diff_position_to_line specResolvePosition
  by_cases h : position = 0
  · subst h
    rw [convertLoop_of_ge 0 side (rustLines patch) 0 0 0 (by omega),
      specScan_zero]
  · rw [convertLoop_eq_specScan position side (rustLines patch) 0 0 0 (by omega)]
    simp

/-! ## DraftStore data model (review_storage.rs) -/

/-- Embeds the `ReviewComment` row type (review_storage.rs:11). -/
structure ReviewComment where
  id : Int
  owner : String
  repo : String
  pr_number : Nat
  file_path : String
  line_number : Nat
  side : String
  body : String
  commit_id : String
  created_at : String
  updated_at : String
  deleted : Bool
  in_reply_to_id : Option Int
deriving DecidableEq

/-- Embeds the `ReviewMetadata` row type (review_storage.rs:28). The
`log_file_index` is an `i32` in the source but is only ever assigned
non-negative probe results, so it is embedded as `Nat`. -/
structure ReviewMetadata where
  owner : String
  repo : String
  pr_number : Nat
  commit_id : String
  body : Option String
  local_folder : Option String
  created_at : String
  log_file_index : Nat
deriving DecidableEq

/-- The application error type. The `AppError` enum declared in
`src/error.rs` is missing the variants that `review_storage.rs`,
`github.rs` and the tests construct (`Internal`, `Api`, `Database` via the
`rusqlite` conversion asserted in `error_tests.rs`). Modelled from the
spec: §7's taxonomy (`Database` for SQL failures, internal errors for a
poisoned lock, typed failures with human-readable messages), restricted to
the constructors the embedded code actually produces. -/
inductive AppError where
  | Database (msg : String)
  | Internal (msg : String)
  | Api (msg : String)
  | Io (msg : String)
deriving DecidableEq

/-- The full state owned by `ReviewStorage`: the two SQLite tables, the log
directory (file name to content, most recent write first), and whether the
connection mutex has been poisoned by a prior panic. -/
structure StoreState where
  metadata : List ReviewMetadata
  comments : List ReviewComment
  disk : List (String × String)
  poisoned : Bool
deriving DecidableEq

/-- The error value every operation returns when `conn.lock()` fails
(review_storage.rs:134 and all other operations). -/
def lockPoisonedError : AppError := .Internal "Lock poisoned"

def metaKeyMatch (owner repo : String) (pr_number : Nat) (m : ReviewMetadata) : Bool :=
  m.owner == owner && m.repo == repo && m.pr_number == pr_number

/-- The `SELECT ... FROM review_metadata WHERE owner/repo/pr_number` query
used by every operation. -/
def metadataLookup (st : StoreState) (owner repo : String) (pr_number : Nat) :
    Option ReviewMetadata :=
  st.metadata.find? (metaKeyMatch owner repo pr_number)

def commentKeyMatch (owner repo : String) (pr_number : Nat) (c : ReviewComment) : Bool :=
  c.owner == owner && c.repo == repo && c.pr_number == pr_number

/-- Byte-lexicographic (codepoint) comparison of strings, matching
SQLite's BINARY collation on UTF-8 text. -/
def charListLT : List Char → List Char → Bool
  | [], [] => false
  | [], _ :: _ => true
  | _ :: _, [] => false
  | a :: as, b :: bs => decide (a.toNat < b.toNat) || (a == b && charListLT as bs)

def strLT (a b : String) : Bool := charListLT a.data b.data

/-- The `ORDER BY file_path, line_number` key used by `get_comments` and
`write_log`. -/
def commentLE (a b : ReviewComment) : Bool :=
  strLT a.file_path b.file_path
    || (a.file_path == b.file_path && decide (a.line_number ≤ b.line_number))

/-- Insert into an ordered list after every element that compares
less-or-equal, keeping equal keys in their original row order. -/
def orderInsert (le : ReviewComment → ReviewComment → Bool) (a : ReviewComment) :
    List ReviewComment → List ReviewComment
  | [] => [a]
  | b :: bs => if le b a then b :: orderInsert le a bs else a :: b :: bs

/-- Stable sort embedding the SQL `ORDER BY` of the comment queries. -/
def orderBy (le : ReviewComment → ReviewComment → Bool) :
    List ReviewComment → List ReviewComment
  | [] => []
  | a :: as => orderInsert le a (orderBy le as)

/-! ## Log file names (review_storage.rs: get_log_path, find_next_log_index) -/

/-- Embeds `std::path::Path::file_name` for the Unix paths the app stores:
the last non-empty `/`-separated component, or nothing when the path is
empty, a root, or terminates in `..`. -/
def pathFileName (path : String) : Option String :=
  match ((path.data.splitOnP (· == '/')).filter (· ≠ [])).getLast? with
  | none => none
  | some comp => if comp = ['.', '.'] then none else some ⟨comp⟩

/-- Embeds the reserved-character replacement in `get_log_path`
(review_storage.rs:727). -/
def sanitizeChar (c : Char) : Char :=
  match c with
  | '\\' | '/' | ':' | '*' | '?' | '"' | '<' | '>' | '|' => '-'
  | _ => c

/-- Embeds the `safe_folder_name` computation of `get_log_path` for
local-folder reviews (review_storage.rs:722). -/
def safeFolderName (local_folder : Option String) : String :=
  let folder_name := (local_folder.bind pathFileName).getD "local-folder"
  let safe := trimL (folder_name.data.map sanitizeChar)
  if safe = [] then "local-folder" else ⟨safe⟩

/-- Shared shape of both file-name branches of `get_log_path`: the base
name, then `-{index}` for a non-zero index, then `.log`. -/
def indexedLogName (base : String) (index : Nat) : String :=
  if index = 0 then base ++ ".log" else base ++ "-" ++ natRepr index ++ ".log"

/-- Embeds `get_log_path` (review_storage.rs:712), giving the file name
inside the `review_logs` directory. -/
def logFileName (owner repo : String) (pr_number : Nat) (index : Nat)
    (local_folder : Option String) : String :=
  if owner == "__local__" && repo == "local" then
    indexedLogName (safeFolderName local_folder) index
  else
    indexedLogName (owner ++ "-" ++ repo ++ "-" ++ natRepr pr_number) index

def diskHas (disk : List (String × String)) (path : String) : Bool :=
  disk.any (fun e => e.1 == path)

def diskRead (disk : List (String × String)) (path : String) : Option String :=
  (disk.find? (fun e => e.1 == path)).map (·.2)

def diskWrite (disk : List (String × String)) (path content : String) :
    List (String × String) :=
  (path, content) :: disk

/-- The probing loop of `find_next_log_index` (review_storage.rs:756). The
source loop is unbounded; the fuel is structural, and with the fuel used by
`find_next_log_index` the loop always finds a free index (proved below). -/
def findIndexLoop (disk : List (String × String)) (name : Nat → String) :
    Nat → Nat → Nat
  | 0, index => index
  | fuel + 1, index =>
    if diskHas disk (name index) then findIndexLoop disk name fuel (index + 1)
    else index

/-- Embeds `find_next_log_index` (review_storage.rs:756). -/
def find_next_log_index (disk : List (String × String)) (owner repo : String)
    (pr_number : Nat) (local_folder : Option String) : Nat :=
  findIndexLoop disk (fun i => logFileName owner repo pr_number i local_folder)
    (disk.length + 1) 0

/-! ## DraftStore operations (review_storage.rs) -/

/-- Embeds `start_review` (review_storage.rs:124): get-or-create of the
metadata row. `now` stands for `Utc::now().to_rfc3339()`. Returns the
metadata the Rust function returns together with the updated state. -/
def start_review (st : StoreState) (owner repo : String) (pr_number : Nat)
    (commit_id : String) (body local_folder : Option String) (now : String) :
    Except AppError (ReviewMetadata × StoreState) :=
  if st.poisoned then .error lockPoisonedError
  else
    match metadataLookup st owner repo pr_number with
    | some metadata =>
      match local_folder with
      | some lf =>
        if metadata.local_folder ≠ some lf then
          let updated := st.metadata.map fun m =>
            if metaKeyMatch owner repo pr_number m then { m with local_folder := some lf }
            else m
          .ok ({ metadata with local_folder := some lf }, { st with metadata := updated })
        else .ok (metadata, st)
      | none => .ok (metadata, st)
    | none =>
      let log_file_index := find_next_log_index st.disk owner repo pr_number local_folder
      let m : ReviewMetadata :=
        { owner := owner, repo := repo, pr_number := pr_number, commit_id := commit_id,
          body := body, local_folder := local_folder, created_at := now,
          log_file_index := log_file_index }
      .ok (m, { st with metadata := st.metadata ++ [m] })

/-- Embeds `update_review_commit` (review_storage.rs:196): fails when no
row exists, otherwise updates the commit id and returns the re-queried
row. -/
def update_review_commit (st : StoreState) (owner repo : String) (pr_number : Nat)
    (new_commit_id : String) : Except AppError (ReviewMetadata × StoreState) :=
  if st.poisoned then .error lockPoisonedError
  else
    match metadataLookup st owner repo pr_number with
    | none =>
      .error (.Internal ("No review found for " ++ owner ++ "/" ++ repo ++ "#"
        ++ natRepr pr_number))
    | some _ =>
      let updated := st.metadata.map fun m =>
        if metaKeyMatch owner repo pr_number m then { m with commit_id := new_commit_id }
        else m
      let st' := { st with metadata := updated }
      match metadataLookup st' owner repo pr_number with
      | some m => .ok (m, st')
      | none => .error (.Database "query returned no rows")

/-- Embeds `get_comments` (review_storage.rs:430): the non-deleted rows of
the key, ordered by file path then line number. -/
def get_comments (st : StoreState) (owner repo : String) (pr_number : Nat) :
    Except AppError (List ReviewComment) :=
  if st.poisoned then .error lockPoisonedError
  else
    .ok (orderBy commentLE
      (st.comments.filter fun c => commentKeyMatch owner repo pr_number c && !c.deleted))

/-- Embeds `get_review_metadata` (review_storage.rs:469). -/
def get_review_metadata (st : StoreState) (owner repo : String) (pr_number : Nat) :
    Except AppError (Option ReviewMetadata) :=
  if st.poisoned then .error lockPoisonedError
  else .ok (metadataLookup st owner repo pr_number)

/-- Embeds the log rendering of `write_log` (review_storage.rs:887): the
per-comment label, side suffix and deletion marker. -/
def lineLabel (c : ReviewComment) : String :=
  if c.line_number == 0 then "Overall" else "Line " ++ natRepr c.line_number

/-- The `(ORIGINAL)` suffix: only for a non-file-level comment whose side
is LEFT up to ASCII case (review_storage.rs:902). -/
def sideLabel (c : ReviewComment) : String :=
  if !(c.line_number == 0) && eqIgnoreAsciiCase c.side "LEFT" then " (ORIGINAL)" else ""

def deletedMark (c : ReviewComment) : String :=
  if c.deleted then "DELETED - " else ""

/-- One rendered comment line (review_storage.rs:910). -/
def commentEntry (c : ReviewComment) : String :=
  "    " ++ deletedMark c ++ lineLabel c ++ sideLabel c ++ ": " ++ c.body ++ "\n"

/-- The grouped comment body of the log (review_storage.rs:887-914): a
blank line and `path:` before each new file group, then one line per
comment (deleted rows included). -/
def renderComments : Option String → List ReviewComment → String
  | _, [] => ""
  | currentFile, c :: rest =>
    (if currentFile ≠ some c.file_path then "\n" ++ c.file_path ++ ":\n" else "")
      ++ commentEntry c ++ renderComments (some c.file_path) rest

/-- The full log content built by `write_log` (review_storage.rs:860-914).
`fetchedTitle` stands for the result of `fetch_pr_title(...).unwrap_or
(String::new())`. -/
def renderLog (metadata : ReviewMetadata) (comments : List ReviewComment)
    (fetchedTitle : String) : String :=
  let is_local_folder := metadata.owner == "__local__" && metadata.repo == "local"
  let pr_title := if is_local_folder then "" else fetchedTitle
  (if is_local_folder then
    "# Review\n"
      ++ (match metadata.local_folder with
          | some lf => "# Local folder: " ++ lf ++ "\n"
          | none => "# Local folder: \n")
  else if pr_title == "" then
    "# Review for PR #" ++ natRepr metadata.pr_number ++ "\n"
      ++ "# URL: https://github.com/" ++ metadata.owner ++ "/" ++ metadata.repo
      ++ "/pull/" ++ natRepr metadata.pr_number ++ "\n"
      ++ "# Repository: " ++ metadata.owner ++ "/" ++ metadata.repo ++ "\n"
  else
    "# Review for PR #" ++ natRepr metadata.pr_number ++ ": " ++ pr_title ++ "\n"
      ++ "# URL: https://github.com/" ++ metadata.owner ++ "/" ++ metadata.repo
      ++ "/pull/" ++ natRepr metadata.pr_number ++ "\n"
      ++ "# Repository: " ++ metadata.owner ++ "/" ++ metadata.repo ++ "\n")
  ++ "# Created: " ++ metadata.created_at ++ "\n"
  ++ (if !is_local_folder then "# Commit: " ++ metadata.commit_id ++ "\n" else "")
  ++ (match metadata.body with
      | some b => "# Review Body: " ++ b ++ "\n"
      | none => "")
  ++ "# Total Comments: "
  ++ natRepr (comments.filter (fun c => !c.deleted)).length ++ "\n\n"
  ++ renderComments none comments

/-- Embeds `write_log` (review_storage.rs:793): re-query the metadata row
and every comment of the key (deleted rows included, ordered by file path
then line), render, and overwrite the log file. -/
def write_log (st : StoreState) (owner repo : String) (pr_number : Nat)
    (fetchedTitle : String) : Except AppError StoreState :=
  if st.poisoned then .error lockPoisonedError
  else
    match metadataLookup st owner repo pr_number with
    | none => .error (.Database "query returned no rows")
    | some metadata =>
      let comments := orderBy commentLE (st.comments.filter (commentKeyMatch owner repo pr_number))
      let path := logFileName owner repo pr_number metadata.log_file_index metadata.local_folder
      let content := renderLog metadata comments fetchedTitle
      .ok { st with disk := diskWrite st.disk path content }

/-- Embeds `delete_comment` (review_storage.rs:363): look up the comment's
key, set the `deleted` flag (the row is retained), then rewrite the log. -/
def delete_comment (st : StoreState) (comment_id : Int) (fetchedTitle : String) :
    Except AppError StoreState :=
  if st.poisoned then .error lockPoisonedError
  else
    match st.comments.find? (fun c => c.id == comment_id) with
    | none => .error (.Database "query returned no rows")
    | some c0 =>
      let updated := st.comments.map fun c =>
        if c.id == comment_id then { c with deleted := true } else c
      let st' := { st with comments := updated }
      write_log st' c0.owner c0.repo c0.pr_number fetchedTitle

/-- Embeds `delete_comment_preserve_log` (review_storage.rs:389): remove
the row physically; the log file is not touched. -/
def delete_comment_preserve_log (st : StoreState) (comment_id : Int) :
    Except AppError StoreState :=
  if st.poisoned then .error lockPoisonedError
  else .ok { st with comments := st.comments.filter (fun c => !(c.id == comment_id)) }

/-- Shared shape of the three terminal operations (review_storage.rs:532,
592, 652): read the metadata row; if present, prepend `header` to the
existing log content when the log file exists, then delete the row; if
absent, do nothing. -/
def terminalOp (st : StoreState) (owner repo : String) (pr_number : Nat)
    (header : String) : Except AppError StoreState :=
  if st.poisoned then .error lockPoisonedError
  else
    match metadataLookup st owner repo pr_number with
    | none => .ok st
    | some meta =>
      let path := logFileName owner repo pr_number meta.log_file_index meta.local_folder
      let disk' :=
        if diskHas st.disk path then
          diskWrite st.disk path (header ++ ((diskRead st.disk path).getD ""))
        else st.disk
      .ok { st with
        metadata := st.metadata.filter (fun m => !metaKeyMatch owner repo pr_number m),
        disk := disk' }

/-- Embeds `abandon_review` (review_storage.rs:532). `now` stands for
`Utc::now().to_rfc3339()`; the header also names the row's creation time,
which `terminalOp` receives already formatted. -/
def abandon_review (st : StoreState) (owner repo : String) (pr_number : Nat)
    (now : String) : Except AppError StoreState :=
  match metadataLookup st owner repo pr_number with
  | some meta =>
    terminalOp st owner repo pr_number
      ("# REVIEW ABANDONED at " ++ now ++ "\n# Original review started at "
        ++ meta.created_at ++ "\n\n")
  | none => terminalOp st owner repo pr_number ""

/-- Embeds `mark_review_submitted` (review_storage.rs:592). -/
def mark_review_submitted (st : StoreState) (owner repo : String) (pr_number : Nat)
    (_pr_title : Option String) (now : String) : Except AppError StoreState :=
  match metadataLookup st owner repo pr_number with
  | some meta =>
    terminalOp st owner repo pr_number
      ("# REVIEW SUBMITTED TO GITHUB at " ++ now ++ "\n# Original review started at "
        ++ meta.created_at ++ "\n\n")
  | none => terminalOp st owner repo pr_number ""

/-- Embeds `clear_review` (review_storage.rs:652). -/
def clear_review (st : StoreState) (owner repo : String) (pr_number : Nat)
    (_pr_title : Option String) (now : String) : Except AppError StoreState :=
  match metadataLookup st owner repo pr_number with
  | some meta =>
    terminalOp st owner repo pr_number
      ("# REVIEW DELETED (NOT SUBMITTED TO GITHUB) at " ++ now
        ++ "\n# Original review started at " ++ meta.created_at ++ "\n\n")
  | none => terminalOp st owner repo pr_number ""

/-! ## SubmissionCoordinator (github.rs: create_review_with_comments,
lib.rs: cmd_submit_local_review) -/

/-- A JSON value as used in the comment payload map. -/
inductive JsonVal where
  | str (s : String)
  | num (n : Nat)
deriving DecidableEq

/-- Embeds the payload map built for one comment in
`create_review_with_comments` (github.rs:1399-1412), with insertion order
preserved: body, commit id and path always; `subject_type: "file"` for a
line number of 0, otherwise line and side. -/
def buildCommentPayload (commit_id : String) (c : ReviewComment) :
    List (String × JsonVal) :=
  [("body", .str c.body), ("commit_id", .str commit_id), ("path", .str c.file_path)]
    ++ (if c.line_number == 0 then [("subject_type", .str "file")]
        else [("line", .num c.line_number), ("side", .str c.side)])

/-- The per-comment failure diagnostic (github.rs:1447). `e` is the display
of the network or remote-rejection error. -/
def commentErrMsg (c : ReviewComment) (e : String) : String :=
  "Failed to post comment to " ++ c.file_path ++ ":" ++ natRepr c.line_number
    ++ " - " ++ e

/-- The submission loop of `create_review_with_comments` (github.rs:1398):
each comment's payload is posted individually; a success appends the local
id to the succeeded list, a failure appends a diagnostic and the loop
continues. The network is embedded as the oracles `sendOk` (does posting
this comment succeed) and `errText` (the error display on failure). -/
def submitPass (sendOk : Int → Bool) (errText : Int → String) (commit_id : String) :
    List ReviewComment → List Int × List String
  | [] => ([], [])
  | c :: rest =>
    let _payload := buildCommentPayload commit_id c
    let result := submitPass sendOk errText commit_id rest
    if sendOk c.id then (c.id :: result.1, result.2)
    else (result.1, commentErrMsg c (errText c.id) :: result.2)

/-- Joining the error list with newlines (`errors.join("\n")`). -/
def joinWith (sep : String) : List String → String
  | [] => ""
  | [x] => x
  | x :: y :: ys => x ++ sep ++ joinWith sep (y :: ys)

/-- The aggregate error message (github.rs:1465-1468). -/
def errorSummary (succeeded total : Nat) (errors : List String) : String :=
  if succeeded > 0 then
    "Submitted " ++ natRepr succeeded ++ " of " ++ natRepr total
      ++ " comments. Failed comments:\n" ++ joinWith "\n" errors
  else
    "Failed to submit all " ++ natRepr total ++ " comments:\n" ++ joinWith "\n" errors

/-- Embeds `create_review_with_comments` (github.rs:1376): run the
submission loop, then return the succeeded ids together with the aggregate
error message when at least one comment failed. -/
def create_review_with_comments (sendOk : Int → Bool) (errText : Int → String)
    (commit_id : String) (comments : List ReviewComment) :
    List Int × Option String :=
  let result := submitPass sendOk errText commit_id comments
  if result.2.length > 0 then
    (result.1, some (errorSummary result.1.length comments.length result.2))
  else (result.1, none)

/-- Modelled from the spec: the `Display` rendering of `AppError`
(`thiserror` messages for the variants missing from src/error.rs); per the
tests each rendering contains its payload message. Only used on error
paths no claim exercises. -/
def appErrorMessage : AppError → String
  | .Database m => "database error: " ++ m
  | .Internal m => m
  | .Api m => m
  | .Io m => "io error: " ++ m

/-- The finalization sweep of `cmd_submit_local_review` (lib.rs:726):
hard-delete each succeeded comment, aborting on the first store error. -/
def deleteAll : StoreState → List Int → StoreState × Option AppError
  | st, [] => (st, none)
  | st, id :: ids =>
    match delete_comment_preserve_log st id with
    | .ok st' => deleteAll st' ids
    | .error e => (st, some e)

/-- Embeds `cmd_submit_local_review` (lib.rs:670): load metadata and active
comments, reconcile the commit id against the pull request's current head
(`head_sha`, the successful result of `fetch_pull_request_details`), run
the submission pass, hard-delete the succeeded comments, mark the review
submitted when no active comments remain, and fail with the aggregate
message when any comment failed. Returns the final state with the
command's result. -/
def cmd_submit_local_review (st : StoreState) (owner repo : String) (pr_number : Nat)
    (head_sha : String) (sendOk : Int → Bool) (errText : Int → String) (now : String) :
    StoreState × Except String Unit :=
  match get_review_metadata st owner repo pr_number with
  | .error e => (st, .error (appErrorMessage e))
  | .ok none => (st, .error "No pending review found")
  | .ok (some metadata) =>
    match get_comments st owner repo pr_number with
    | .error e => (st, .error (appErrorMessage e))
    | .ok comments =>
      let commit_id_to_use :=
        if head_sha ≠ metadata.commit_id then head_sha else metadata.commit_id
      let passResult := create_review_with_comments sendOk errText commit_id_to_use comments
      match deleteAll st passResult.1 with
      | (st1, some e) => (st1, .error (appErrorMessage e))
      | (st1, none) =>
        match get_comments st1 owner repo pr_number with
        | .error e => (st1, .error (appErrorMessage e))
        | .ok remaining =>
          if remaining.isEmpty then
            match mark_review_submitted st1 owner repo pr_number none now with
            | .error e => (st1, .error (appErrorMessage e))
            | .ok st2 =>
              match passResult.2 with
              | some err => (st2, .error err)
              | none => (st2, .ok ())
          else
            match passResult.2 with
            | some err => (st1, .error err)
            | none => (st1, .ok ())

/-! ## C2: start_review is an idempotent get-or-create -/

theorem metaKeyMatch_self (owner repo : String) (pr_number : Nat) (m : ReviewMetadata)
    (h1 : m.owner = owner) (h2 : m.repo = repo) (h3 : m.pr_number = pr_number) :
    metaKeyMatch owner repo pr_number m = true := by
  simp [metaKeyMatch, h1, h2, h3]

theorem start_review_existing (st : StoreState) (owner repo : String) (pr_number : Nat)
    (commit_id : String) (body local_folder : Option String) (now : String)
    (mrow : ReviewMetadata)
    (hp : st.poisoned = false)
    (hlook : metadataLookup st owner repo pr_number = some mrow) :
    ∃ m' st',
      start_review st owner repo pr_number commit_id body local_folder now = .ok (m', st') ∧
      m'.commit_id = mrow.commit_id ∧ m'.created_at = mrow.created_at ∧
      st'.poisoned = st.poisoned ∧ st'.comments = st.comments ∧ st'.disk = st.disk ∧
      metadataLookup st' owner repo pr_number = some m' := by
  unfold start_review
  rw [if_neg (by simp [hp]), hlook]
  cases local_folder with
  | none => exact ⟨mrow, st, rfl, rfl, rfl, rfl, rfl, rfl, hlook⟩
  | some lf =>
    dsimp only
    by_cases heq : mrow.local_folder = some lf
    · rw [if_neg (by simp [heq])]
      exact ⟨mrow, st, rfl, rfl, rfl, rfl, rfl, rfl, hlook⟩
    · rw [if_pos (by simp [heq])]
      refine ⟨{ mrow with local_folder := some lf }, _, rfl, rfl, rfl, rfl, rfl, rfl, ?_⟩
      unfold metadataLookup at hlook ⊢
      simp only
      rw [List.find?_map]
      have hcongr : (fun m => metaKeyMatch owner repo pr_number m) ∘
          (fun m => if metaKeyMatch owner repo pr_number m then
            { m with local_folder := some lf } else m) =
          fun m => metaKeyMatch owner repo pr_number m := by
        funext m
        by_cases hm : metaKeyMatch owner repo pr_number m
        · simp only [Function.comp_apply, hm, if_pos]
          simp only [metaKeyMatch] at hm ⊢
          exact hm
        · simp only [Function.comp_apply, hm, if_neg]
          simp [hm]
      rw [hcongr, hlook]
      have hm : metaKeyMatch owner repo pr_number mrow = true := by
        have := List.find?_some hlook
        exact this
      simp [hm]

theorem start_review_fresh (st : StoreState) (owner repo : String) (pr_number : Nat)
    (commit_id : String) (body local_folder : Option String) (now : String)
    (hp : st.poisoned = false)
    (hlook : metadataLookup st owner repo pr_number = none) :
    ∃ m1 st1,
      start_review st owner repo pr_number commit_id body local_folder now = .ok (m1, st1) ∧
      m1.owner = owner ∧ m1.repo = repo ∧ m1.pr_number = pr_number ∧
      m1.commit_id = commit_id ∧ m1.created_at = now ∧ m1.body = body ∧
      m1.local_folder = local_folder ∧
      m1.log_file_index = find_next_log_index st.disk owner repo pr_number local_folder ∧
      st1.metadata = st.metadata ++ [m1] ∧ st1.comments = st.comments ∧
      st1.disk = st.disk ∧ st1.poisoned = st.poisoned ∧
      metadataLookup st1 owner repo pr_number = some m1 := by
  unfold start_review
  rw [if_neg (by simp [hp]), hlook]
  refine ⟨_, _, rfl, rfl, rfl, rfl, rfl, rfl, rfl, rfl, rfl, rfl, rfl, rfl, rfl, ?_⟩
  unfold metadataLookup at hlook ⊢
  simp only
  rw [List.find?_append, hlook]
  simp [metaKeyMatch]

/-- C2: `start_review` is an idempotent get-or-create. Started twice for
the same key with different commit ids, both calls return the same
`created_at` and the first commit id; and on an existing row `start_review`
never changes the stored `commit_id` or `created_at`. -/
theorem start_review_idempotent_get_or_create :
    (∀ (st : StoreState) (owner repo : String) (pr_number : Nat)
      (c1 c2 : String) (b1 b2 lf1 lf2 : Option String) (t1 t2 : String),
      st.poisoned = false →
      metadataLookup st owner repo pr_number = none →
      c1 ≠ c2 →
      ∃ m1 st1 m2 st2,
        start_review st owner repo pr_number c1 b1 lf1 t1 = .ok (m1, st1) ∧
        start_review st1 owner repo pr_number c2 b2 lf2 t2 = .ok (m2, st2) ∧
        m1.commit_id = c1 ∧ m1.created_at = t1 ∧
        m2.commit_id = c1 ∧ m2.created_at = t1)
    ∧
    (∀ (st : StoreState) (owner repo : String) (pr_number : Nat)
      (cid : String) (b lf : Option String) (t : String) (mrow : ReviewMetadata),
      st.poisoned = false →
      metadataLookup st owner repo pr_number = some mrow →
      ∃ m' st',
        start_review st owner repo pr_number cid b lf t = .ok (m', st') ∧
        m'.commit_id = mrow.commit_id ∧ m'.created_at = mrow.created_at ∧
        metadataLookup st' owner repo pr_number = some m') := by
  constructor
  · intro st owner repo pr_number c1 c2 b1 b2 lf1 lf2 t1 t2 hp hlook hne
    obtain ⟨m1, st1, hcall1, hown, hrepo, hpr, hcommit, hcreated, hbody, hlf, hidx,
      hmeta1, hcom1, hdisk1, hpois1, hlook1⟩ :=
      start_review_fresh st owner repo pr_number c1 b1 lf1 t1 hp hlook
    obtain ⟨m2, st2, hcall2, hcommit2, hcreated2, _, _, _, _⟩ :=
      start_review_existing st1 owner repo pr_number c2 b2 lf2 t2 m1
        (by rw [hpois1, hp]) hlook1
    exact ⟨m1, st1, m2, st2, hcall1, hcall2, hcommit, hcreated,
      by rw [hcommit2, hcommit], by rw [hcreated2, hcreated]⟩
  · intro st owner repo pr_number cid b lf t mrow hp hlook
    obtain ⟨m', st', hcall, hcommit, hcreated, _, _, _, hlook'⟩ :=
      start_review_existing st owner repo pr_number cid b lf t mrow hp hlook
    exact ⟨m', st', hcall, hcommit, hcreated, hlook'⟩

/-- Concrete instantiation of C2 on an empty store. -/
theorem start_review_idempotent_get_or_create_witness :
    (StoreState.mk [] [] [] false).poisoned = false ∧
    metadataLookup (StoreState.mk [] [] [] false) "octo" "repo" 7 = none ∧
    ("aaa111" : String) ≠ "bbb222" ∧
    (∃ m1 st1 m2 st2,
      start_review (StoreState.mk [] [] [] false) "octo" "repo" 7 "aaa111"
        none none "2024-01-01T00:00:00Z" = .ok (m1, st1) ∧
      start_review st1 "octo" "repo" 7 "bbb222" none none
        "2024-02-02T00:00:00Z" = .ok (m2, st2) ∧
      m1.commit_id = "aaa111" ∧ m1.created_at = "2024-01-01T00:00:00Z" ∧
      m2.commit_id = "aaa111" ∧ m2.created_at = "2024-01-01T00:00:00Z") :=
  ⟨by decide, by decide, by decide,
    start_review_idempotent_get_or_create.1 (StoreState.mk [] [] [] false)
      "octo" "repo" 7 "aaa111" "bbb222" none none none none
      "2024-01-01T00:00:00Z" "2024-02-02T00:00:00Z"
      (by decide) (by decide) (by decide)⟩

/-! ## Ordering lemmas shared by several claims -/

theorem mem_orderInsert (le : ReviewComment → ReviewComment → Bool) (a : ReviewComment) :
    ∀ l x, x ∈ orderInsert le a l ↔ x = a ∨ x ∈ l := by
  intro l
  induction l with
  | nil => intro x; simp [orderInsert]
  | cons b bs ih =>
    intro x
    unfold orderInsert
    by_cases h : le b a = true
    · rw [if_pos h]
      simp only [List.mem_cons, ih]
      tauto
    · rw [if_neg h]
      simp [List.mem_cons]

theorem mem_orderBy (le : ReviewComment → ReviewComment → Bool) :
    ∀ l x, x ∈ orderBy le l ↔ x ∈ l := by
  intro l
  induction l with
  | nil => intro x; simp [orderBy]
  | cons a as ih =>
    intro x
    unfold orderBy
    rw [mem_orderInsert, ih]
    simp

/-! ## C10: terminal operations are silent no-ops on a missing key -/

/-- C10: for a key with no review-metadata row, `abandon_review`,
`clear_review` and `mark_review_submitted` succeed and leave the state
(rows, log files) completely unchanged, while `update_review_commit` on
the same missing key is an error. -/
theorem terminal_ops_noop_on_missing_key :
    ∀ (st : StoreState) (owner repo : String) (pr_number : Nat)
      (title : Option String) (now new_commit : String),
      st.poisoned = false →
      metadataLookup st owner repo pr_number = none →
      abandon_review st owner repo pr_number now = .ok st ∧
      clear_review st owner repo pr_number title now = .ok st ∧
      mark_review_submitted st owner repo pr_number title now = .ok st ∧
      ∃ e, update_review_commit st owner repo pr_number new_commit = .error e := by
  intro st owner repo pr_number title now new_commit hp hlook
  have hterm : ∀ header, terminalOp st owner repo pr_number header = .ok st := by
    intro header
    unfold terminalOp
    rw [if_neg (by simp [hp]), hlook]
  refine ⟨?_, ?_, ?_, ?_⟩
  · unfold abandon_review
    rw [hlook, hterm]
  · unfold clear_review
    rw [hlook, hterm]
  · unfold mark_review_submitted
    rw [hlook, hterm]
  · unfold update_review_commit
    rw [if_neg (by simp [hp]), hlook]
    exact ⟨_, rfl⟩

/-- Concrete instantiation of C10 on a store that has rows for a different
key only. -/
theorem terminal_ops_noop_on_missing_key_witness :
    (StoreState.mk [ReviewMetadata.mk "other" "repo" 2 "c" none none "t0" 0] [] []
      false).poisoned = false ∧
    metadataLookup (StoreState.mk [ReviewMetadata.mk "other" "repo" 2 "c" none none "t0" 0]
      [] [] false) "octo" "repo" 7 = none ∧
    (abandon_review (StoreState.mk [ReviewMetadata.mk "other" "repo" 2 "c" none none "t0" 0]
        [] [] false) "octo" "repo" 7 "t1" =
      .ok (StoreState.mk [ReviewMetadata.mk "other" "repo" 2 "c" none none "t0" 0] [] [] false) ∧
    clear_review (StoreState.mk [ReviewMetadata.mk "other" "repo" 2 "c" none none "t0" 0]
        [] [] false) "octo" "repo" 7 none "t1" =
      .ok (StoreState.mk [ReviewMetadata.mk "other" "repo" 2 "c" none none "t0" 0] [] [] false) ∧
    mark_review_submitted (StoreState.mk [ReviewMetadata.mk "other" "repo" 2 "c" none none "t0" 0]
        [] [] false) "octo" "repo" 7 none "t1" =
      .ok (StoreState.mk [ReviewMetadata.mk "other" "repo" 2 "c" none none "t0" 0] [] [] false) ∧
    ∃ e, update_review_commit (StoreState.mk
        [ReviewMetadata.mk "other" "repo" 2 "c" none none "t0" 0] [] [] false)
        "octo" "repo" 7 "newsha" = .error e) :=
  ⟨by decide, by decide,
    terminal_ops_noop_on_missing_key
      (StoreState.mk [ReviewMetadata.mk "other" "repo" 2 "c" none none "t0" 0] [] [] false)
      "octo" "repo" 7 none "t1" "newsha" (by decide) (by decide)⟩

/-! ## C5: hard delete preserves the log -/

/-- C5: `delete_comment_preserve_log` physically removes the row — the id
disappears from the raw table and from `get_comments` for every key — and
leaves every log file exactly as it was (the disk component is unchanged). -/
theorem delete_comment_preserve_log_frame :
    ∀ (st : StoreState) (c : ReviewComment),
      st.poisoned = false →
      c ∈ st.comments →
      ∃ st', delete_comment_preserve_log st c.id = .ok st' ∧
        st'.disk = st.disk ∧
        st'.metadata = st.metadata ∧
        (∀ x ∈ st'.comments, x.id ≠ c.id) ∧
        (∀ owner repo pr_number cs,
          get_comments st' owner repo pr_number = .ok cs → ∀ x ∈ cs, x.id ≠ c.id) := by
  intro st c hp hmem
  unfold delete_comment_preserve_log
  rw [if_neg (by simp [hp])]
  refine ⟨_, rfl, rfl, rfl, ?_, ?_⟩
  · intro x hx
    have := List.of_mem_filter hx
    simpa using this
  · intro owner repo pr_number cs hcs x hx
    unfold get_comments at hcs
    rw [if_neg (by simp [hp])] at hcs
    injection hcs with hcs
    rw [← hcs] at hx
    rw [mem_orderBy] at hx
    have hx2 := List.mem_filter.mp hx
    have := List.of_mem_filter hx2.1
    simpa using this

/-- Concrete instantiation of C5: a one-comment store; after the hard
delete the comment list is empty and the (non-empty) disk is untouched. -/
theorem delete_comment_preserve_log_frame_witness :
    (StoreState.mk [] [ReviewComment.mk 5 "o" "r" 1 "f.rs" 3 "RIGHT" "b" "c" "t" "t" false none]
      [("o-r-1.log", "old content")] false).poisoned = false ∧
    ReviewComment.mk 5 "o" "r" 1 "f.rs" 3 "RIGHT" "b" "c" "t" "t" false none ∈
      (StoreState.mk [] [ReviewComment.mk 5 "o" "r" 1 "f.rs" 3 "RIGHT" "b" "c" "t" "t" false none]
        [("o-r-1.log", "old content")] false).comments ∧
    (∃ st', delete_comment_preserve_log
        (StoreState.mk [] [ReviewComment.mk 5 "o" "r" 1 "f.rs" 3 "RIGHT" "b" "c" "t" "t" false none]
          [("o-r-1.log", "old content")] false)
        (ReviewComment.mk 5 "o" "r" 1 "f.rs" 3 "RIGHT" "b" "c" "t" "t" false none).id = .ok st' ∧
      st'.disk = [("o-r-1.log", "old content")] ∧
      st'.metadata = [] ∧
      (∀ x ∈ st'.comments, x.id ≠
        (ReviewComment.mk 5 "o" "r" 1 "f.rs" 3 "RIGHT" "b" "c" "t" "t" false none).id) ∧
      (∀ owner repo pr_number cs, get_comments st' owner repo pr_number = .ok cs →
        ∀ x ∈ cs, x.id ≠
          (ReviewComment.mk 5 "o" "r" 1 "f.rs" 3 "RIGHT" "b" "c" "t" "t" false none).id)) :=
  ⟨by decide, by decide,
    delete_comment_preserve_log_frame
      (StoreState.mk [] [ReviewComment.mk 5 "o" "r" 1 "f.rs" 3 "RIGHT" "b" "c" "t" "t" false none]
        [("o-r-1.log", "old content")] false)
      (ReviewComment.mk 5 "o" "r" 1 "f.rs" 3 "RIGHT" "b" "c" "t" "t" false none)
      (by decide) (by decide)⟩

/-! ## C8: error taxonomy of the DraftStore operations -/

/-- Modelled from the spec: §7 classifies a poisoned-lock failure as the
`LockPoisoned` kind, "a prior panic corrupted shared state — fatal,
surfaced as an internal error"; in the code every such failure is the
value `Internal "Lock poisoned"`. -/
def isLockPoisonedKind (e : AppError) : Prop := e = lockPoisonedError

/-- Modelled from the spec: §7's `NotFound` kind is the caller error "no
such key"; `update_review_commit` surfaces it as
`Internal ("No review found for {owner}/{repo}#{pr}")`. -/
def isNotFoundKind (e : AppError) : Prop :=
  ∃ key, e = .Internal ("No review found for " ++ key)

/-- Modelled from the spec: §7's `Database` kind for SQL failures (the
`From` conversion from `rusqlite::Error` that `error_tests.rs` exercises
but whose declaration is absent from src/error.rs). -/
def isDatabaseKind (e : AppError) : Prop := ∃ msg, e = .Database msg

/-- C8: with a poisoned connection mutex every embedded DraftStore
operation fails with the lock-poisoned error kind; `update_review_commit`
fails with the not-found kind when no metadata row exists for the key, and
otherwise updates only the commit id and returns the refreshed row; and
every SQL-level failure value the embedded store produces is of the
`Database` kind. -/
theorem draft_store_error_taxonomy :
    (∀ (st : StoreState) (owner repo : String) (pr_number : Nat)
      (cid title : String) (b lf topt : Option String) (t : String) (comment_id : Int),
      st.poisoned = true →
      start_review st owner repo pr_number cid b lf t = .error lockPoisonedError ∧
      update_review_commit st owner repo pr_number cid = .error lockPoisonedError ∧
      get_comments st owner repo pr_number = .error lockPoisonedError ∧
      get_review_metadata st owner repo pr_number = .error lockPoisonedError ∧
      write_log st owner repo pr_number title = .error lockPoisonedError ∧
      delete_comment st comment_id title = .error lockPoisonedError ∧
      delete_comment_preserve_log st comment_id = .error lockPoisonedError ∧
      abandon_review st owner repo pr_number t = .error lockPoisonedError ∧
      clear_review st owner repo pr_number topt t = .error lockPoisonedError ∧
      mark_review_submitted st owner repo pr_number topt t = .error lockPoisonedError ∧
      isLockPoisonedKind lockPoisonedError)
    ∧
    (∀ (st : StoreState) (owner repo : String) (pr_number : Nat) (cid : String),
      st.poisoned = false →
      metadataLookup st owner repo pr_number = none →
      ∃ e, update_review_commit st owner repo pr_number cid = .error e ∧ isNotFoundKind e)
    ∧
    (∀ (st : StoreState) (owner repo : String) (pr_number : Nat) (cid : String)
      (mrow : ReviewMetadata),
      st.poisoned = false →
      metadataLookup st owner repo pr_number = some mrow →
      ∃ m' st', update_review_commit st owner repo pr_number cid = .ok (m', st') ∧
        m'.commit_id = cid ∧ m'.owner = mrow.owner ∧ m'.repo = mrow.repo ∧
        m'.pr_number = mrow.pr_number ∧ m'.created_at = mrow.created_at ∧
        m'.body = mrow.body ∧ m'.local_folder = mrow.local_folder ∧
        m'.log_file_index = mrow.log_file_index ∧
        metadataLookup st' owner repo pr_number = some m' ∧
        st'.comments = st.comments ∧ st'.disk = st.disk)
    ∧
    (∀ msg, isDatabaseKind (.Database msg)) := by
  refine ⟨?_, ?_, ?_, fun msg => ⟨msg, rfl⟩⟩
  · intro st owner repo pr_number cid title b lf topt t comment_id hp
    have hterm : ∀ header, terminalOp st owner repo pr_number header =
        .error lockPoisonedError := by
      intro header
      unfold terminalOp
      rw [if_pos hp]
    refine ⟨?_, ?_, ?_, ?_, ?_, ?_, ?_, ?_, ?_, ?_, rfl⟩
    · unfold start_review; rw [if_pos hp]
    · unfold update_review_commit; rw [if_pos hp]
    · unfold get_comments; rw [if_pos hp]
    · unfold get_review_metadata; rw [if_pos hp]
    · unfold write_log; rw [if_pos hp]
    · unfold delete_comment; rw [if_pos hp]
    · unfold delete_comment_preserve_log; rw [if_pos hp]
    · unfold abandon_review
      cases metadataLookup st owner repo pr_number <;> exact hterm _
    · unfold clear_review
      cases metadataLookup st owner repo pr_number <;> exact hterm _
    · unfold mark_review_submitted
      cases metadataLookup st owner repo pr_number <;> exact hterm _
  · intro st owner repo pr_number cid hp hlook
    unfold update_review_commit
    rw [if_neg (by simp [hp]), hlook]
    exact ⟨_, rfl, owner ++ "/" ++ repo ++ "#" ++ natRepr pr_number,
      by simp [String.append_assoc]⟩
  · intro st owner repo pr_number cid mrow hp hlook
    unfold update_review_commit
    rw [if_neg (by simp [hp]), hlook]
    have hmatch : metaKeyMatch owner repo pr_number mrow = true := List.find?_some hlook
    have hcongr : (fun m => metaKeyMatch owner repo pr_number m) ∘
        (fun m => if metaKeyMatch owner repo pr_number m then
          { m with commit_id := cid } else m) =
        fun m => metaKeyMatch owner repo pr_number m := by
      funext m
      by_cases hm : metaKeyMatch owner repo pr_number m
      · simp only [Function.comp_apply, hm, if_pos]
        simp only [metaKeyMatch] at hm ⊢
        exact hm
      · simp only [Function.comp_apply, hm, if_neg]
        simp [hm]
    have hlook' : metadataLookup
        { st with metadata := st.metadata.map fun m =>
            if metaKeyMatch owner repo pr_number m then { m with commit_id := cid } else m }
        owner repo pr_number = some { mrow with commit_id := cid } := by
      unfold metadataLookup at hlook ⊢
      simp only
      rw [List.find?_map, hcongr, hlook]
      simp [hmatch]
    dsimp only
    rw [hlook']
    exact ⟨_, _, rfl, rfl, rfl, rfl, rfl, rfl, rfl, rfl, rfl, hlook', rfl, rfl⟩

/-- Concrete instantiation of C8: a poisoned store, a missing key and a
present key. -/
theorem draft_store_error_taxonomy_witness :
    (StoreState.mk [] [] [] true).poisoned = true ∧
    update_review_commit (StoreState.mk [] [] [] true) "o" "r" 1 "c" =
      .error lockPoisonedError ∧
    (StoreState.mk [ReviewMetadata.mk "o" "r" 1 "old" none none "t0" 0] [] [] false).poisoned
      = false ∧
    metadataLookup (StoreState.mk [ReviewMetadata.mk "o" "r" 1 "old" none none "t0" 0]
      [] [] false) "x" "y" 9 = none ∧
    (∃ e, update_review_commit (StoreState.mk
        [ReviewMetadata.mk "o" "r" 1 "old" none none "t0" 0] [] [] false) "x" "y" 9 "c"
      = .error e ∧ isNotFoundKind e) ∧
    (∃ m' st', update_review_commit (StoreState.mk
        [ReviewMetadata.mk "o" "r" 1 "old" none none "t0" 0] [] [] false) "o" "r" 1 "newsha"
      = .ok (m', st') ∧
      m'.commit_id = "newsha" ∧ m'.owner = "o" ∧ m'.repo = "r" ∧
      m'.pr_number = 1 ∧ m'.created_at = "t0" ∧ m'.body = none ∧
      m'.local_folder = none ∧ m'.log_file_index = 0 ∧
      metadataLookup st' "o" "r" 1 = some m' ∧ st'.comments = [] ∧ st'.disk = []) :=
  ⟨by decide,
    ((draft_store_error_taxonomy.1 (StoreState.mk [] [] [] true) "o" "r" 1 "c" "t"
      none none none "t" 0 (by decide)).2.1),
    by decide, by decide,
    draft_store_error_taxonomy.2.1 (StoreState.mk
      [ReviewMetadata.mk "o" "r" 1 "old" none none "t0" 0] [] [] false) "x" "y" 9 "c"
      (by decide) (by decide),
    by
      obtain ⟨m', st', h⟩ := draft_store_error_taxonomy.2.2.1 (StoreState.mk
        [ReviewMetadata.mk "o" "r" 1 "old" none none "t0" 0] [] [] false) "o" "r" 1 "newsha"
        (ReviewMetadata.mk "o" "r" 1 "old" none none "t0" 0) (by decide) (by decide)
      refine ⟨m', st', h.1, h.2.1, ?_⟩
      have := h.2.2
      simpa using this⟩

/-! ## C6: remote payload construction -/

/-- C6 (counterexample): the claim says a threaded reply's payload
includes the parent reference; but for a comment with `in_reply_to_id`
set, the payload built by `create_review_with_comments` has no
`in_reply_to` field at all. -/
theorem submission_payload_parent_counterexample :
    (ReviewComment.mk 3 "o" "r" 1 "f.rs" 4 "RIGHT" "body" "c" "t" "t" false
      (some 7)).in_reply_to_id = some 7 ∧
    ∀ v, ("in_reply_to", v) ∉ buildCommentPayload "sha"
      (ReviewComment.mk 3 "o" "r" 1 "f.rs" 4 "RIGHT" "body" "c" "t" "t" false (some 7)) := by
  refine ⟨rfl, ?_⟩
  intro v h
  simp [buildCommentPayload] at h

/-- C6 (amended): every submitted comment's payload contains the body, the
commit id and the file path; a line number of 0 yields the whole-file
marker and no line/side fields, otherwise the comment's line and side (and
no whole-file marker); and the payload never contains a parent reference,
even when `in_reply_to_id` is set. -/
theorem submission_payload_fields :
    ∀ (commit_id : String) (c : ReviewComment),
      ("body", JsonVal.str c.body) ∈ buildCommentPayload commit_id c ∧
      ("commit_id", JsonVal.str commit_id) ∈ buildCommentPayload commit_id c ∧
      ("path", JsonVal.str c.file_path) ∈ buildCommentPayload commit_id c ∧
      (c.line_number = 0 →
        ("subject_type", JsonVal.str "file") ∈ buildCommentPayload commit_id c ∧
        (∀ v, ("line", v) ∉ buildCommentPayload commit_id c) ∧
        (∀ v, ("side", v) ∉ buildCommentPayload commit_id c)) ∧
      (c.line_number ≠ 0 →
        ("line", JsonVal.num c.line_number) ∈ buildCommentPayload commit_id c ∧
        ("side", JsonVal.str c.side) ∈ buildCommentPayload commit_id c ∧
        (∀ v, ("subject_type", v) ∉ buildCommentPayload commit_id c)) ∧
      (∀ v, ("in_reply_to", v) ∉ buildCommentPayload commit_id c) := by
  intro commit_id c
  unfold buildCommentPayload
  by_cases h : c.line_number = 0
  · simp only [h]
    refine ⟨by simp, by simp, by simp, ?_, ?_, ?_⟩
    · intro _
      refine ⟨by simp, ?_, ?_⟩ <;> intro v hv <;> simp at hv
    · intro hc; exact absurd rfl hc
    · intro v hv; simp at hv
  · rw [if_neg (by simpa using h)]
    refine ⟨by simp, by simp, by simp, ?_, ?_, ?_⟩
    · intro hc; exact absurd hc h
    · intro _
      refine ⟨by simp, by simp, ?_⟩
      intro v hv; simp at hv
    · intro v hv; simp at hv

/-- Concrete instantiation of C6 (amended) on a whole-file comment and a
line-anchored threaded reply. -/
theorem submission_payload_fields_witness :
    (("subject_type", JsonVal.str "file") ∈ buildCommentPayload "sha"
        (ReviewComment.mk 2 "o" "r" 1 "f.rs" 0 "RIGHT" "overall" "c" "t" "t" false none) ∧
      (∀ v, ("line", v) ∉ buildCommentPayload "sha"
        (ReviewComment.mk 2 "o" "r" 1 "f.rs" 0 "RIGHT" "overall" "c" "t" "t" false none))) ∧
    (("line", JsonVal.num 4) ∈ buildCommentPayload "sha"
        (ReviewComment.mk 3 "o" "r" 1 "f.rs" 4 "RIGHT" "body" "c" "t" "t" false (some 7)) ∧
      ("side", JsonVal.str "RIGHT") ∈ buildCommentPayload "sha"
        (ReviewComment.mk 3 "o" "r" 1 "f.rs" 4 "RIGHT" "body" "c" "t" "t" false (some 7)) ∧
      (∀ v, ("in_reply_to", v) ∉ buildCommentPayload "sha"
        (ReviewComment.mk 3 "o" "r" 1 "f.rs" 4 "RIGHT" "body" "c" "t" "t" false (some 7)))) := by
  constructor
  · have h := submission_payload_fields "sha"
      (ReviewComment.mk 2 "o" "r" 1 "f.rs" 0 "RIGHT" "overall" "c" "t" "t" false none)
    obtain ⟨-, -, -, h0, -, -⟩ := h
    obtain ⟨h1, h2, -⟩ := h0 rfl
    exact ⟨h1, h2⟩
  · have h := submission_payload_fields "sha"
      (ReviewComment.mk 3 "o" "r" 1 "f.rs" 4 "RIGHT" "body" "c" "t" "t" false (some 7))
    obtain ⟨-, -, -, -, hn, hp⟩ := h
    obtain ⟨h1, h2, -⟩ := hn (by decide)
    exact ⟨h1, h2, hp⟩

/-! ## Log rendering lemmas shared by C4, C7 and C9 -/

theorem occursIn_refl (w : String) : occursIn w w := ⟨[], [], by simp⟩

theorem diskRead_diskWrite_self (disk : List (String × String)) (path content : String) :
    diskRead (diskWrite disk path content) path = some content := by
  simp [diskRead, diskWrite, List.find?_cons]

theorem diskRead_diskWrite_ne (disk : List (String × String)) (path q content : String)
    (h : q ≠ path) : diskRead (diskWrite disk path content) q = diskRead disk q := by
  simp [diskRead, diskWrite, List.find?_cons, Ne.symm h]

theorem diskHas_diskWrite (disk : List (String × String)) (path content q : String) :
    diskHas (diskWrite disk path content) q = (q == path || diskHas disk q) := by
  simp [diskHas, diskWrite, BEq.comm]

/-- Every comment of the rendered group body contributes its entry as a
contiguous substring. -/
theorem occursIn_commentEntry_renderComments :
    ∀ (comments : List ReviewComment) (currentFile : Option String) (c : ReviewComment),
      c ∈ comments → occursIn (commentEntry c) (renderComments currentFile comments) := by
  intro comments
  induction comments with
  | nil => intro cf c h; simp at h
  | cons c' rest ih =>
    intro cf c h
    rw [List.mem_cons] at h
    unfold renderComments
    rcases h with rfl | h
    · exact occursIn_append_left _
        (occursIn_append_right _ (occursIn_refl (commentEntry c)))
    · exact occursIn_append_right _ (ih (some c'.file_path) c h)

/-- The rendered log is a header followed by the rendered comment groups. -/
theorem renderLog_decompose (metadata : ReviewMetadata) (comments : List ReviewComment)
    (fetchedTitle : String) :
    ∃ header, renderLog metadata comments fetchedTitle =
      header ++ renderComments none comments := by
  unfold renderLog
  exact ⟨_, rfl⟩

theorem occursIn_commentEntry_renderLog (metadata : ReviewMetadata)
    (comments : List ReviewComment) (fetchedTitle : String) (c : ReviewComment)
    (h : c ∈ comments) :
    occursIn (commentEntry c) (renderLog metadata comments fetchedTitle) := by
  obtain ⟨header, hdr⟩ := renderLog_decompose metadata comments fetchedTitle
  rw [hdr]
  exact occursIn_append_right _ (occursIn_commentEntry_renderComments comments none c h)

/-! ## C4: soft delete -/

/-- C4: after `delete_comment(id)` succeeds, the row is retained with the
deleted flag set (not removed), `get_comments` for the owning review
excludes the id, and the rewritten log file contains the comment's
rendered line — its body text prefixed with `DELETED - ` (after the line
label). -/
theorem soft_delete_retains_log_entry :
    ∀ (st : StoreState) (c : ReviewComment) (fetchedTitle : String)
      (mrow : ReviewMetadata),
      st.poisoned = false →
      st.comments.find? (fun x => x.id == c.id) = some c →
      metadataLookup st c.owner c.repo c.pr_number = some mrow →
      ∃ st' content,
        delete_comment st c.id fetchedTitle = .ok st' ∧
        { c with deleted := true } ∈ st'.comments ∧
        (∀ x ∈ st'.comments, x.id = c.id → x.deleted = true) ∧
        (∀ cs, get_comments st' c.owner c.repo c.pr_number = .ok cs →
          ∀ x ∈ cs, x.id ≠ c.id) ∧
        diskRead st'.disk
          (logFileName c.owner c.repo c.pr_number mrow.log_file_index mrow.local_folder)
          = some content ∧
        occursIn ("DELETED - " ++ lineLabel c ++ sideLabel c ++ ": " ++ c.body ++ "\n")
          content := by
  intro st c fetchedTitle mrow hp hfind hlook
  have hcmem : c ∈ st.comments := List.mem_of_find?_eq_some hfind
  unfold delete_comment
  rw [if_neg (by simp [hp]), hfind]
  dsimp only
  set flagged := fun x : ReviewComment =>
    if x.id == c.id then { x with deleted := true } else x with hflagged
  set st2 : StoreState := { st with comments := st.comments.map flagged } with hst2
  have hlook2 : metadataLookup st2 c.owner c.repo c.pr_number = some mrow := hlook
  unfold write_log
  rw [if_neg (by simp [hst2, hp]), hlook2]
  dsimp only
  set sorted := orderBy commentLE
    (st2.comments.filter (commentKeyMatch c.owner c.repo c.pr_number)) with hsorted
  set content := renderLog mrow sorted fetchedTitle with hcontent
  set cflag : ReviewComment := { c with deleted := true } with hcflag
  have hcflag_mem2 : cflag ∈ st2.comments := by
    rw [hst2]
    dsimp only
    have : cflag = flagged c := by
      rw [hflagged, hcflag]
      simp
    rw [this]
    exact List.mem_map_of_mem flagged hcmem
  refine ⟨_, content, rfl, hcflag_mem2, ?_, ?_, ?_, ?_⟩
  · intro x hx hid
    dsimp only at hx
    obtain ⟨y, hy, hfy⟩ := List.mem_map.mp hx
    simp only [hflagged] at hfy
    by_cases hyid : y.id == c.id
    · rw [if_pos hyid] at hfy
      rw [← hfy]
    · rw [if_neg hyid] at hfy
      rw [← hfy] at hid
      simp [hid] at hyid
  · intro cs hcs x hx
    unfold get_comments at hcs
    rw [if_neg (by simp [hst2, hp])] at hcs
    injection hcs with hcs
    rw [← hcs, mem_orderBy] at hx
    have hx2 := List.mem_filter.mp hx
    have hxdel : x.deleted = false := by
      have := hx2.2
      simp at this
      exact this.2
    obtain ⟨y, hy, hfy⟩ := List.mem_map.mp hx2.1
    intro hid
    simp only [hflagged] at hfy
    by_cases hyid : y.id == c.id
    · rw [if_pos hyid] at hfy
      rw [← hfy] at hxdel
      simp at hxdel
    · rw [if_neg hyid] at hfy
      rw [← hfy] at hid
      simp [hid] at hyid
  · exact diskRead_diskWrite_self _ _ _
  · have hmatch : commentKeyMatch c.owner c.repo c.pr_number cflag = true := by
      rw [hcflag]; simp [commentKeyMatch]
    have hmem_sorted : cflag ∈ sorted := by
      rw [hsorted, mem_orderBy]
      exact List.mem_filter.mpr ⟨hcflag_mem2, hmatch⟩
    have hentry : occursIn (commentEntry cflag) content := by
      rw [hcontent]
      exact occursIn_commentEntry_renderLog mrow sorted fetchedTitle cflag hmem_sorted
    have hentry_eq : commentEntry cflag =
        "    " ++ ("DELETED - " ++ lineLabel c ++ sideLabel c ++ ": " ++ c.body ++ "\n") := by
      apply String.ext
      rw [hcflag]
      unfold commentEntry deletedMark lineLabel sideLabel
      simp [string_data_append, List.append_assoc]
    rw [hentry_eq] at hentry
    exact occursIn_trans (occursIn_append_right "    " (occursIn_refl _)) hentry

/-- Concrete instantiation of C4 on a one-comment review. -/
theorem soft_delete_retains_log_entry_witness :
    (StoreState.mk [ReviewMetadata.mk "o" "r" 1 "sha" none none "t0" 0]
      [ReviewComment.mk 5 "o" "r" 1 "f.rs" 3 "RIGHT" "needs fix" "sha" "t" "t" false none]
      [] false).poisoned = false ∧
    (StoreState.mk [ReviewMetadata.mk "o" "r" 1 "sha" none none "t0" 0]
      [ReviewComment.mk 5 "o" "r" 1 "f.rs" 3 "RIGHT" "needs fix" "sha" "t" "t" false none]
      [] false).comments.find? (fun x => x.id ==
        (ReviewComment.mk 5 "o" "r" 1 "f.rs" 3 "RIGHT" "needs fix" "sha" "t" "t" false none).id)
      = some (ReviewComment.mk 5 "o" "r" 1 "f.rs" 3 "RIGHT" "needs fix" "sha" "t" "t" false none) ∧
    metadataLookup (StoreState.mk [ReviewMetadata.mk "o" "r" 1 "sha" none none "t0" 0]
      [ReviewComment.mk 5 "o" "r" 1 "f.rs" 3 "RIGHT" "needs fix" "sha" "t" "t" false none]
      [] false) "o" "r" 1 = some (ReviewMetadata.mk "o" "r" 1 "sha" none none "t0" 0) ∧
    (∃ st' content,
      delete_comment (StoreState.mk [ReviewMetadata.mk "o" "r" 1 "sha" none none "t0" 0]
        [ReviewComment.mk 5 "o" "r" 1 "f.rs" 3 "RIGHT" "needs fix" "sha" "t" "t" false none]
        [] false)
        (ReviewComment.mk 5 "o" "r" 1 "f.rs" 3 "RIGHT" "needs fix" "sha" "t" "t" false none).id
        "My PR" = .ok st' ∧
      { ReviewComment.mk 5 "o" "r" 1 "f.rs" 3 "RIGHT" "needs fix" "sha" "t" "t" false none
        with deleted := true } ∈ st'.comments ∧
      (∀ x ∈ st'.comments, x.id =
        (ReviewComment.mk 5 "o" "r" 1 "f.rs" 3 "RIGHT" "needs fix" "sha" "t" "t" false none).id
        → x.deleted = true) ∧
      (∀ cs, get_comments st' "o" "r" 1 = .ok cs → ∀ x ∈ cs, x.id ≠
        (ReviewComment.mk 5 "o" "r" 1 "f.rs" 3 "RIGHT" "needs fix" "sha" "t" "t" false none).id) ∧
      diskRead st'.disk (logFileName "o" "r" 1 0 none) = some content ∧
      occursIn ("DELETED - "
        ++ lineLabel (ReviewComment.mk 5 "o" "r" 1 "f.rs" 3 "RIGHT" "needs fix" "sha" "t" "t" false none)
        ++ sideLabel (ReviewComment.mk 5 "o" "r" 1 "f.rs" 3 "RIGHT" "needs fix" "sha" "t" "t" false none)
        ++ ": " ++ "needs fix" ++ "\n") content) :=
  ⟨by decide, by decide, by decide,
    soft_delete_retains_log_entry
      (StoreState.mk [ReviewMetadata.mk "o" "r" 1 "sha" none none "t0" 0]
        [ReviewComment.mk 5 "o" "r" 1 "f.rs" 3 "RIGHT" "needs fix" "sha" "t" "t" false none]
        [] false)
      (ReviewComment.mk 5 "o" "r" 1 "f.rs" 3 "RIGHT" "needs fix" "sha" "t" "t" false none)
      "My PR" (ReviewMetadata.mk "o" "r" 1 "sha" none none "t0" 0)
      (by decide) (by decide) (by decide)⟩

/-! ## C7: whole-file rendering invariant -/

/-- C7 (counterexample): the claim says the rendering of a state with a
line-0 comment never contains the substring `Line 0`; but a comment body
is copied into the log verbatim, so a line-0 comment whose body mentions
`Line 0` puts that substring into the rendering. -/
theorem whole_file_line0_counterexample :
    (ReviewComment.mk 9 "o" "r" 1 "f.rs" 0 "RIGHT" "see Line 0" "sha" "t" "t" false
      none).line_number = 0 ∧
    occursIn "Line 0"
      (renderLog (ReviewMetadata.mk "o" "r" 1 "sha" none none "t0" 0)
        [ReviewComment.mk 9 "o" "r" 1 "f.rs" 0 "RIGHT" "see Line 0" "sha" "t" "t" false none]
        "T") := by
  exact ⟨rfl, by decide⟩

theorem lineLabel_ne_line0 (c : ReviewComment) : lineLabel c ≠ "Line 0" := by
  unfold lineLabel
  by_cases h : c.line_number = 0
  · rw [if_pos (by simp [h])]
    decide
  · rw [if_neg (by simp [h])]
    intro habs
    have h0 : ("Line 0" : String) = "Line " ++ "0" := by decide
    rw [h0] at habs
    have hdata := congrArg String.data habs
    rw [string_data_append, string_data_append] at hdata
    have := List.append_cancel_left hdata
    have hrep : natRepr c.line_number = "0" := String.ext this
    have : c.line_number = 0 := natRepr_inj _ 0 (by rw [hrep]; decide)
    exact h this

/-- C7 (amended): in every rendered log state, a comment with line number
0 is labelled `Overall` with the side suffix suppressed entirely (even if
a side value such as LEFT is stored) and its `Overall` entry occurs in the
rendering; the renderer never emits the label `Line 0` for any comment;
and a comment with line number n > 0 is labelled `Line n`, carrying the
`(ORIGINAL)` suffix exactly when its stored side equals LEFT up to ASCII
case. (The full file can still contain `Line 0` inside stored text such as
a comment body, which is what refutes the claim as stated.) -/
theorem whole_file_rendering_invariant :
    ∀ (metadata : ReviewMetadata) (comments : List ReviewComment) (fetchedTitle : String),
      (∀ c ∈ comments, c.line_number = 0 →
        lineLabel c = "Overall" ∧ sideLabel c = "" ∧
        occursIn ("    " ++ deletedMark c ++ "Overall" ++ ": " ++ c.body ++ "\n")
          (renderLog metadata comments fetchedTitle)) ∧
      (∀ c : ReviewComment, lineLabel c ≠ "Line 0") ∧
      (∀ c ∈ comments, 0 < c.line_number →
        lineLabel c = "Line " ++ natRepr c.line_number ∧
        (sideLabel c = " (ORIGINAL)" ↔ eqIgnoreAsciiCase c.side "LEFT" = true)) := by
  intro metadata comments fetchedTitle
  refine ⟨?_, fun c => lineLabel_ne_line0 c, ?_⟩
  · intro c hc h0
    have hlab : lineLabel c = "Overall" := by
      unfold lineLabel
      rw [if_pos (by simp [h0])]
    have hside : sideLabel c = "" := by
      unfold sideLabel
      rw [if_neg (by simp [h0])]
    refine ⟨hlab, hside, ?_⟩
    have hentry : commentEntry c =
        "    " ++ deletedMark c ++ "Overall" ++ ": " ++ c.body ++ "\n" := by
      unfold commentEntry
      rw [hlab, hside]
      apply String.ext
      simp [string_data_append]
    rw [← hentry]
    exact occursIn_commentEntry_renderLog metadata comments fetchedTitle c hc
  · intro c _ h0
    have hlab : lineLabel c = "Line " ++ natRepr c.line_number := by
      unfold lineLabel
      rw [if_neg (by simp; omega)]
    refine ⟨hlab, ?_⟩
    unfold sideLabel
    rw [show (!(c.line_number == 0)) = true by simp; omega]
    by_cases hs : eqIgnoreAsciiCase c.side "LEFT" = true
    · simp [hs]
    · simp only [Bool.true_and]
      rw [if_neg (by simpa using hs)]
      constructor
      · intro habs
        exact absurd habs.symm (by decide)
      · intro habs
        exact absurd habs hs

/-- Concrete instantiation of C7 (amended): a line-0 comment with a stored
LEFT side (suffix suppressed) and a line-2 LEFT comment (suffix present). -/
theorem whole_file_rendering_invariant_witness :
    (ReviewComment.mk 1 "o" "r" 1 "f.rs" 0 "LEFT" "overall note" "sha" "t" "t" false none
      ∈ [ReviewComment.mk 1 "o" "r" 1 "f.rs" 0 "LEFT" "overall note" "sha" "t" "t" false none,
         ReviewComment.mk 2 "o" "r" 1 "f.rs" 2 "LEFT" "old line" "sha" "t" "t" false none]) ∧
    (ReviewComment.mk 1 "o" "r" 1 "f.rs" 0 "LEFT" "overall note" "sha" "t" "t" false
      none).line_number = 0 ∧
    (lineLabel (ReviewComment.mk 1 "o" "r" 1 "f.rs" 0 "LEFT" "overall note" "sha" "t" "t"
        false none) = "Overall" ∧
      sideLabel (ReviewComment.mk 1 "o" "r" 1 "f.rs" 0 "LEFT" "overall note" "sha" "t" "t"
        false none) = "" ∧
      occursIn ("    " ++ deletedMark (ReviewComment.mk 1 "o" "r" 1 "f.rs" 0 "LEFT"
          "overall note" "sha" "t" "t" false none) ++ "Overall" ++ ": " ++ "overall note"
          ++ "\n")
        (renderLog (ReviewMetadata.mk "o" "r" 1 "sha" none none "t0" 0)
          [ReviewComment.mk 1 "o" "r" 1 "f.rs" 0 "LEFT" "overall note" "sha" "t" "t" false none,
           ReviewComment.mk 2 "o" "r" 1 "f.rs" 2 "LEFT" "old line" "sha" "t" "t" false none]
          "T")) ∧
    (lineLabel (ReviewComment.mk 2 "o" "r" 1 "f.rs" 2 "LEFT" "old line" "sha" "t" "t" false
        none) = "Line " ++ natRepr 2 ∧
      (sideLabel (ReviewComment.mk 2 "o" "r" 1 "f.rs" 2 "LEFT" "old line" "sha" "t" "t"
        false none) = " (ORIGINAL)" ↔
        eqIgnoreAsciiCase "LEFT" "LEFT" = true)) := by
  refine ⟨by decide, rfl, ?_, ?_⟩
  · exact (whole_file_rendering_invariant (ReviewMetadata.mk "o" "r" 1 "sha" none none "t0" 0)
      [ReviewComment.mk 1 "o" "r" 1 "f.rs" 0 "LEFT" "overall note" "sha" "t" "t" false none,
       ReviewComment.mk 2 "o" "r" 1 "f.rs" 2 "LEFT" "old line" "sha" "t" "t" false none]
      "T").1 _ (by decide) rfl
  · exact (whole_file_rendering_invariant (ReviewMetadata.mk "o" "r" 1 "sha" none none "t0" 0)
      [ReviewComment.mk 1 "o" "r" 1 "f.rs" 0 "LEFT" "overall note" "sha" "t" "t" false none,
       ReviewComment.mk 2 "o" "r" 1 "f.rs" 2 "LEFT" "old line" "sha" "t" "t" false none]
      "T").2.2 _ (by decide) (by decide)

/-! ## C3: submission pass failure semantics -/

theorem submitPass_succeeded (sendOk : Int → Bool) (errText : Int → String)
    (commit_id : String) :
    ∀ comments, (submitPass sendOk errText commit_id comments).1 =
      (comments.filter (fun c => sendOk c.id)).map (·.id) := by
  intro comments
  induction comments with
  | nil => rfl
  | cons c rest ih =>
    unfold submitPass
    by_cases h : sendOk c.id = true <;> simp [h, ih, List.filter_cons]

theorem submitPass_errors (sendOk : Int → Bool) (errText : Int → String)
    (commit_id : String) :
    ∀ comments, (submitPass sendOk errText commit_id comments).2 =
      (comments.filter (fun c => !(sendOk c.id))).map
        (fun c => commentErrMsg c (errText c.id)) := by
  intro comments
  induction comments with
  | nil => rfl
  | cons c rest ih =>
    unfold submitPass
    by_cases h : sendOk c.id = true <;> simp [h, ih, List.filter_cons]

theorem deleteAll_ok : ∀ (ids : List Int) (st : StoreState), st.poisoned = false →
    ∃ st', deleteAll st ids = (st', none) ∧
      st'.metadata = st.metadata ∧ st'.disk = st.disk ∧ st'.poisoned = false ∧
      (∀ x, x ∈ st'.comments ↔ (x ∈ st.comments ∧ ids.contains x.id = false)) := by
  intro ids
  induction ids with
  | nil =>
    intro st hp
    exact ⟨st, rfl, rfl, rfl, hp, by simp⟩
  | cons id rest ih =>
    intro st hp
    unfold deleteAll delete_comment_preserve_log
    rw [if_neg (by simp [hp])]
    dsimp only
    obtain ⟨st', hrun, hmeta, hdisk, hpois, hmem⟩ :=
      ih { st with comments := st.comments.filter (fun c => !(c.id == id)) } (by simp [hp])
    refine ⟨st', hrun, hmeta, hdisk, hpois, ?_⟩
    intro x
    rw [hmem x]
    simp only [List.mem_filter, List.contains_cons]
    constructor
    · rintro ⟨⟨hx, hne⟩, hrest⟩
      refine ⟨hx, ?_⟩
      simp only [Bool.or_eq_false_iff]
      exact ⟨by simpa using hne, hrest⟩
    · rintro ⟨hx, hcon⟩
      simp only [Bool.or_eq_false_iff] at hcon
      exact ⟨⟨hx, by simpa using hcon.1⟩, hcon.2⟩

theorem mem_get_comments (st : StoreState) (owner repo : String) (pr_number : Nat)
    (cs : List ReviewComment) (h : get_comments st owner repo pr_number = .ok cs) :
    ∀ x, x ∈ cs ↔ (x ∈ st.comments ∧ commentKeyMatch owner repo pr_number x = true ∧
      x.deleted = false) := by
  intro x
  unfold get_comments at h
  by_cases hp : st.poisoned = true
  · rw [if_pos hp] at h; cases h
  · rw [if_neg hp] at h
    injection h with h
    rw [← h, mem_orderBy, List.mem_filter]
    simp only [Bool.and_eq_true, Bool.not_eq_true']

theorem occursIn_joinWith (sep : String) :
    ∀ l x, x ∈ l → occursIn x (joinWith sep l) := by
  intro l
  induction l with
  | nil => intro x h; simp at h
  | cons a rest ih =>
    intro x h
    rw [List.mem_cons] at h
    cases rest with
    | nil =>
      rcases h with rfl | h
      · exact occursIn_refl x
      · simp at h
    | cons b bs =>
      rcases h with rfl | h
      · exact occursIn_append_left _ (occursIn_self_left x sep)
      · exact occursIn_append_right _ (ih x h)

theorem errorSummary_decompose (succeeded total : Nat) (errors : List String) :
    ∃ header, errorSummary succeeded total errors = header ++ joinWith "\n" errors := by
  unfold errorSummary
  split
  · exact ⟨_, rfl⟩
  · exact ⟨_, rfl⟩

theorem occursIn_fileLine_commentErrMsg (c : ReviewComment) (e : String) :
    occursIn ("Failed to post comment to " ++ c.file_path ++ ":" ++ natRepr c.line_number)
      (commentErrMsg c e) :=
  occursIn_append_left _ (occursIn_self_left _ _)

/-- C3: submission pass failure semantics. A per-comment remote failure
does not abort the pass; afterwards exactly the succeeded comments are
hard-deleted, so `get_comments` returns exactly the failed ones; the
review is marked submitted (metadata row removed) exactly when zero
active comments remain; the command succeeds iff there were zero
failures, and otherwise the aggregate error names each failed comment's
file and line. -/
theorem submission_pass_failure_semantics :
    ∀ (st : StoreState) (owner repo : String) (pr_number : Nat)
      (head_sha : String) (sendOk : Int → Bool) (errText : Int → String)
      (now : String) (mrow : ReviewMetadata),
      st.poisoned = false →
      (st.comments.map (·.id)).Nodup →
      metadataLookup st owner repo pr_number = some mrow →
      ∃ stF res active,
        cmd_submit_local_review st owner repo pr_number head_sha sendOk errText now
          = (stF, res) ∧
        get_comments st owner repo pr_number = .ok active ∧
        (∀ cs, get_comments stF owner repo pr_number = .ok cs →
          ∀ x, x ∈ cs ↔ (x ∈ active ∧ sendOk x.id = false)) ∧
        (metadataLookup stF owner repo pr_number = none ↔
          active.filter (fun c => !(sendOk c.id)) = []) ∧
        (res = .ok () ↔ active.filter (fun c => !(sendOk c.id)) = []) ∧
        (∀ err, res = .error err →
          ∀ c ∈ active, sendOk c.id = false →
            occursIn ("Failed to post comment to " ++ c.file_path ++ ":"
              ++ natRepr c.line_number) err) := by
  intro st owner repo pr_number head_sha sendOk errText now mrow hp hnodup hlook
  -- the active comment list
  set active := orderBy commentLE
    (st.comments.filter fun c => commentKeyMatch owner repo pr_number c && !c.deleted)
    with hactive
  have hget : get_comments st owner repo pr_number = .ok active := by
    unfold get_comments
    rw [if_neg (by simp [hp])]
  have hmemActive := mem_get_comments st owner repo pr_number active hget
  -- succeeded ids and failed comments
  set succIds := (active.filter (fun c => sendOk c.id)).map (·.id) with hsuccIds
  set failed := active.filter (fun c => !(sendOk c.id)) with hfailed
  have hcontains : ∀ x ∈ st.comments,
      (succIds.contains x.id = true ↔ (x ∈ active ∧ sendOk x.id = true)) := by
    intro x hx
    have hmemform : succIds.contains x.id = true ↔ x.id ∈ succIds := by simp
    rw [hmemform, hsuccIds]
    simp only [List.mem_map, List.mem_filter]
    constructor
    · rintro ⟨c', ⟨hc'a, hc'ok⟩, hcid⟩
      have hc'mem : c' ∈ st.comments := ((hmemActive c').mp hc'a).1
      have : c' = x := List.inj_on_of_nodup_map hnodup hc'mem hx (by simpa using hcid)
      rw [← this]
      exact ⟨hc'a, hc'ok⟩
    · rintro ⟨hxa, hxok⟩
      exact ⟨x, ⟨hxa, hxok⟩, rfl⟩
  set cidUse := if head_sha ≠ mrow.commit_id then head_sha else mrow.commit_id with hcid
  have hmeta : get_review_metadata st owner repo pr_number = .ok (some mrow) := by
    unfold get_review_metadata
    rw [if_neg (by simp [hp]), hlook]
  have herrs : (submitPass sendOk errText cidUse active).2 =
      failed.map (fun c => commentErrMsg c (errText c.id)) := by
    rw [submitPass_errors, hfailed]
  have hsucc1 : (submitPass sendOk errText cidUse active).1 = succIds := by
    rw [submitPass_succeeded, hsuccIds]
  obtain ⟨st1, hdel, hmeta1, hdisk1, hpois1, hmem1⟩ := deleteAll_ok succIds st hp
  have hlook1 : metadataLookup st1 owner repo pr_number = some mrow := by
    unfold metadataLookup at hlook ⊢
    rw [hmeta1]
    exact hlook
  set remaining := orderBy commentLE
    (st1.comments.filter fun c => commentKeyMatch owner repo pr_number c && !c.deleted)
    with hremaining
  have hget1 : get_comments st1 owner repo pr_number = .ok remaining := by
    unfold get_comments
    rw [if_neg (by simp [hpois1])]
  have hmemRem := mem_get_comments st1 owner repo pr_number remaining hget1
  -- membership in `remaining` is exactly "active and failed"
  have hremIff : ∀ x, x ∈ remaining ↔ (x ∈ active ∧ sendOk x.id = false) := by
    intro x
    rw [hmemRem x]
    constructor
    · rintro ⟨hx1, hkey, hdel'⟩
      obtain ⟨hxst, hnocon⟩ := (hmem1 x).mp hx1
      have hxa : x ∈ active := (hmemActive x).mpr ⟨hxst, hkey, hdel'⟩
      refine ⟨hxa, ?_⟩
      by_contra hok
      have : succIds.contains x.id = true :=
        (hcontains x hxst).mpr ⟨hxa, by simpa using hok⟩
      rw [hnocon] at this
      cases this
    · rintro ⟨hxa, hxfail⟩
      obtain ⟨hxst, hkey, hdel'⟩ := (hmemActive x).mp hxa
      refine ⟨(hmem1 x).mpr ⟨hxst, ?_⟩, hkey, hdel'⟩
      by_contra hcon
      have : sendOk x.id = true :=
        ((hcontains x hxst).mp (by simpa using hcon)).2
      rw [hxfail] at this
      cases this
  by_cases hfail : failed = []
  · -- no failures: the pass succeeds and the review is finalized
    have hpass : create_review_with_comments sendOk errText cidUse active =
        (succIds, none) := by
      simp only [create_review_with_comments]
      rw [hsucc1, herrs, hfail]
      simp
    have hremnil : remaining = [] := by
      rw [List.eq_nil_iff_forall_not_mem]
      intro x hx
      obtain ⟨hxa, hxfail⟩ := (hremIff x).mp hx
      have : x ∈ failed := by
        rw [hfailed]
        exact List.mem_filter.mpr ⟨hxa, by simp [hxfail]⟩
      rw [hfail] at this
      simp at this
    set st2 : StoreState := { st1 with
        metadata := st1.metadata.filter (fun m => !metaKeyMatch owner repo pr_number m),
        disk := if diskHas st1.disk (logFileName owner repo pr_number
            mrow.log_file_index mrow.local_folder) then
          diskWrite st1.disk (logFileName owner repo pr_number
            mrow.log_file_index mrow.local_folder)
            ("# REVIEW SUBMITTED TO GITHUB at " ++ now
              ++ "\n# Original review started at " ++ mrow.created_at ++ "\n\n"
              ++ ((diskRead st1.disk (logFileName owner repo pr_number
                mrow.log_file_index mrow.local_folder)).getD ""))
        else st1.disk } with hst2
    have hmark : mark_review_submitted st1 owner repo pr_number none now = .ok st2 := by
      unfold mark_review_submitted
      rw [hlook1]
      dsimp only
      unfold terminalOp
      rw [if_neg (by simp [hpois1]), hlook1]
    have hrun : cmd_submit_local_review st owner repo pr_number head_sha sendOk errText now
        = (st2, .ok ()) := by
      simp only [cmd_submit_local_review]
      rw [hmeta]
      dsimp only
      rw [hget]
      dsimp only
      rw [← hcid, hpass]
      dsimp only
      rw [hdel]
      dsimp only
      rw [hget1]
      dsimp only
      rw [hremnil]
      dsimp only [List.isEmpty_nil]
      rw [if_pos rfl, hmark]
    refine ⟨st2, .ok (), active, hrun, hget, ?_, ?_, ?_, ?_⟩
    · intro cs hcs x
      have hmemcs := mem_get_comments _ owner repo pr_number cs hcs x
      rw [hmemcs]
      dsimp only
      constructor
      · rintro ⟨hx1, hkey, hdel'⟩
        exact (hremIff x).mp ((hmemRem x).mpr ⟨hx1, hkey, hdel'⟩)
      · intro hx
        obtain ⟨hx1, hkey, hdel'⟩ := (hmemRem x).mp ((hremIff x).mpr hx)
        exact ⟨hx1, hkey, hdel'⟩
    · constructor
      · intro _; exact hfail
      · intro _
        unfold metadataLookup
        rw [hst2]
        dsimp only
        rw [List.find?_eq_none]
        intro m hm
        have := (List.mem_filter.mp hm).2
        simp at this
        simp [this]
    · constructor
      · intro _; exact hfail
      · intro _; rfl
    · intro err habs
      cases habs
  · -- at least one failure: the pass continues, deletes the succeeded
    -- comments only, keeps the review open and aggregates the errors
    have hlen : 0 < (failed.map (fun c => commentErrMsg c (errText c.id))).length := by
      rw [List.length_map]
      cases hfe : failed with
      | nil => exact absurd hfe hfail
      | cons a l => simp
    have hpass : create_review_with_comments sendOk errText cidUse active =
        (succIds, some (errorSummary succIds.length active.length
          (failed.map (fun c => commentErrMsg c (errText c.id))))) := by
      simp only [create_review_with_comments]
      rw [hsucc1, herrs]
      rw [if_pos (by simpa using hlen)]
    have hremne : remaining.isEmpty = false := by
      obtain ⟨c0, hc0⟩ := List.exists_mem_of_ne_nil failed hfail
      have hc0f := List.mem_filter.mp (hfailed ▸ hc0)
      have hc0rem : c0 ∈ remaining :=
        (hremIff c0).mpr ⟨hc0f.1, by simpa using hc0f.2⟩
      cases hrm : remaining with
      | nil => rw [hrm] at hc0rem; simp at hc0rem
      | cons a l => simp
    have hrun : cmd_submit_local_review st owner repo pr_number head_sha sendOk errText now
        = (st1, .error (errorSummary succIds.length active.length
            (failed.map (fun c => commentErrMsg c (errText c.id))))) := by
      simp only [cmd_submit_local_review]
      rw [hmeta]
      dsimp only
      rw [hget]
      dsimp only
      rw [← hcid, hpass]
      dsimp only
      rw [hdel]
      dsimp only
      rw [hget1]
      dsimp only
      rw [hremne]
      simp
    refine ⟨st1, .error (errorSummary succIds.length active.length
      (failed.map (fun c => commentErrMsg c (errText c.id)))), active, hrun, hget,
      ?_, ?_, ?_, ?_⟩
    · intro cs hcs x
      have hmemcs := mem_get_comments _ owner repo pr_number cs hcs x
      rw [hmemcs]
      constructor
      · rintro ⟨hx1, hkey, hdel'⟩
        exact (hremIff x).mp ((hmemRem x).mpr ⟨hx1, hkey, hdel'⟩)
      · intro hx
        obtain ⟨hx1, hkey, hdel'⟩ := (hmemRem x).mp ((hremIff x).mpr hx)
        exact ⟨hx1, hkey, hdel'⟩
    · constructor
      · intro habs
        rw [hlook1] at habs
        cases habs
      · intro habs
        exact absurd habs hfail
    · constructor
      · intro habs
        cases habs
      · intro habs
        exact absurd habs hfail
    · intro err habs c hca hcfail
      injection habs with habs
      obtain ⟨header, hdr⟩ := errorSummary_decompose succIds.length active.length
        (failed.map (fun c => commentErrMsg c (errText c.id)))
      have hcfailed : c ∈ failed := by
        rw [hfailed]
        exact List.mem_filter.mpr ⟨hca, by simp [hcfail]⟩
      have hmsgmem : commentErrMsg c (errText c.id) ∈
          failed.map (fun c => commentErrMsg c (errText c.id)) :=
        List.mem_map_of_mem _ hcfailed
      have h1 : occursIn (commentErrMsg c (errText c.id))
          (joinWith "\n" (failed.map (fun c => commentErrMsg c (errText c.id)))) :=
        occursIn_joinWith "\n" _ _ hmsgmem
      have h2 : occursIn (commentErrMsg c (errText c.id)) err := by
        rw [← habs, hdr]
        exact occursIn_append_right header h1
      exact occursIn_trans (occursIn_fileLine_commentErrMsg c (errText c.id)) h2

/-- Concrete instantiation of C3: three active comments of which exactly
the second fails remotely. -/
theorem submission_pass_failure_semantics_witness :
    (StoreState.mk [ReviewMetadata.mk "o" "r" 1 "sha" none none "t0" 0]
      [ReviewComment.mk 1 "o" "r" 1 "a.rs" 1 "RIGHT" "one" "sha" "t" "t" false none,
       ReviewComment.mk 2 "o" "r" 1 "a.rs" 2 "RIGHT" "two" "sha" "t" "t" false none,
       ReviewComment.mk 3 "o" "r" 1 "a.rs" 3 "RIGHT" "three" "sha" "t" "t" false none]
      [] false).poisoned = false ∧
    ((StoreState.mk [ReviewMetadata.mk "o" "r" 1 "sha" none none "t0" 0]
      [ReviewComment.mk 1 "o" "r" 1 "a.rs" 1 "RIGHT" "one" "sha" "t" "t" false none,
       ReviewComment.mk 2 "o" "r" 1 "a.rs" 2 "RIGHT" "two" "sha" "t" "t" false none,
       ReviewComment.mk 3 "o" "r" 1 "a.rs" 3 "RIGHT" "three" "sha" "t" "t" false none]
      [] false).comments.map (·.id)).Nodup ∧
    metadataLookup (StoreState.mk [ReviewMetadata.mk "o" "r" 1 "sha" none none "t0" 0]
      [ReviewComment.mk 1 "o" "r" 1 "a.rs" 1 "RIGHT" "one" "sha" "t" "t" false none,
       ReviewComment.mk 2 "o" "r" 1 "a.rs" 2 "RIGHT" "two" "sha" "t" "t" false none,
       ReviewComment.mk 3 "o" "r" 1 "a.rs" 3 "RIGHT" "three" "sha" "t" "t" false none]
      [] false) "o" "r" 1 = some (ReviewMetadata.mk "o" "r" 1 "sha" none none "t0" 0) ∧
    (∃ stF res active,
      cmd_submit_local_review (StoreState.mk
          [ReviewMetadata.mk "o" "r" 1 "sha" none none "t0" 0]
          [ReviewComment.mk 1 "o" "r" 1 "a.rs" 1 "RIGHT" "one" "sha" "t" "t" false none,
           ReviewComment.mk 2 "o" "r" 1 "a.rs" 2 "RIGHT" "two" "sha" "t" "t" false none,
           ReviewComment.mk 3 "o" "r" 1 "a.rs" 3 "RIGHT" "three" "sha" "t" "t" false none]
          [] false)
        "o" "r" 1 "sha" (fun i => !(i == 2)) (fun _ => "boom") "t9" = (stF, res) ∧
      get_comments (StoreState.mk [ReviewMetadata.mk "o" "r" 1 "sha" none none "t0" 0]
          [ReviewComment.mk 1 "o" "r" 1 "a.rs" 1 "RIGHT" "one" "sha" "t" "t" false none,
           ReviewComment.mk 2 "o" "r" 1 "a.rs" 2 "RIGHT" "two" "sha" "t" "t" false none,
           ReviewComment.mk 3 "o" "r" 1 "a.rs" 3 "RIGHT" "three" "sha" "t" "t" false none]
          [] false) "o" "r" 1 = .ok active ∧
      (∀ cs, get_comments stF "o" "r" 1 = .ok cs →
        ∀ x, x ∈ cs ↔ (x ∈ active ∧ (fun i => !(i == 2)) x.id = false)) ∧
      (metadataLookup stF "o" "r" 1 = none ↔
        active.filter (fun c => !((fun i => !(i == 2)) c.id)) = []) ∧
      (res = .ok () ↔ active.filter (fun c => !((fun i => !(i == 2)) c.id)) = []) ∧
      (∀ err, res = .error err →
        ∀ c ∈ active, (fun i => !(i == 2)) c.id = false →
          occursIn ("Failed to post comment to " ++ c.file_path ++ ":"
            ++ natRepr c.line_number) err)) :=
  ⟨by decide, by decide, by decide,
    submission_pass_failure_semantics
      (StoreState.mk [ReviewMetadata.mk "o" "r" 1 "sha" none none "t0" 0]
        [ReviewComment.mk 1 "o" "r" 1 "a.rs" 1 "RIGHT" "one" "sha" "t" "t" false none,
         ReviewComment.mk 2 "o" "r" 1 "a.rs" 2 "RIGHT" "two" "sha" "t" "t" false none,
         ReviewComment.mk 3 "o" "r" 1 "a.rs" 3 "RIGHT" "three" "sha" "t" "t" false none]
        [] false)
      "o" "r" 1 "sha" (fun i => !(i == 2)) (fun _ => "boom") "t9"
      (ReviewMetadata.mk "o" "r" 1 "sha" none none "t0" 0)
      (by decide) (by decide) (by decide)⟩

/-! ## C9: log-file index assignment -/

theorem indexedLogName_inj (base : String) :
    Function.Injective (indexedLogName base) := by
  intro i j h
  unfold indexedLogName at h
  by_cases hi : i = 0 <;> by_cases hj : j = 0
  · rw [hi, hj]
  · rw [if_pos hi, if_neg hj] at h
    have hlen := congrArg (fun s => s.data.length) h
    simp only [string_data_append, List.length_append] at hlen
    have hne := natReprAux_ne_nil j
    cases hrep : natReprAux j with
    | nil => exact absurd hrep hne
    | cons a l =>
      have : (natRepr j).data = a :: l := hrep
      rw [this] at hlen
      simp at hlen
      omega
  · rw [if_neg hi, if_pos hj] at h
    have hlen := congrArg (fun s => s.data.length) h
    simp only [string_data_append, List.length_append] at hlen
    have hne := natReprAux_ne_nil i
    cases hrep : natReprAux i with
    | nil => exact absurd hrep hne
    | cons a l =>
      have : (natRepr i).data = a :: l := hrep
      rw [this] at hlen
      simp at hlen
      omega
  · rw [if_neg hi, if_neg hj] at h
    have hdata := congrArg String.data h
    simp only [string_data_append, List.append_assoc] at hdata
    have h1 := List.append_cancel_left hdata
    have h2 := List.append_cancel_left h1
    have h3 := List.append_cancel_right h2
    exact natReprAux_inj i j h3

theorem logFileName_inj (owner repo : String) (pr_number : Nat)
    (local_folder : Option String) :
    Function.Injective (fun i => logFileName owner repo pr_number i local_folder) := by
  intro i j h
  unfold logFileName at h
  dsimp only at h
  by_cases hloc : (owner == "__local__" && repo == "local") = true
  · rw [if_pos hloc, if_pos hloc] at h
    exact indexedLogName_inj _ h
  · rw [if_neg hloc, if_neg hloc] at h
    exact indexedLogName_inj _ h

theorem diskHas_iff_mem_map (disk : List (String × String)) (p : String) :
    diskHas disk p = true ↔ p ∈ disk.map Prod.fst := by
  unfold diskHas
  rw [List.any_eq_true]
  simp only [List.mem_map, beq_iff_eq]

/-- Pigeonhole: among the first `disk.length + 1` candidate names for a
base, at least one is not a file on disk (the names are pairwise distinct
and the disk holds only `disk.length` names). -/
theorem exists_free_index (disk : List (String × String)) (base : String) :
    ∃ k, k < disk.length + 1 ∧ diskHas disk (indexedLogName base k) = false := by
  by_contra habs
  push_neg at habs
  have hall : ∀ k < disk.length + 1, diskHas disk (indexedLogName base k) = true := by
    intro k hk
    have := habs k hk
    cases hd : diskHas disk (indexedLogName base k) with
    | false => exact absurd hd this
    | true => rfl
  set L := (List.range (disk.length + 1)).map (indexedLogName base) with hL
  have hnodup : L.Nodup := (List.nodup_range _).map (indexedLogName_inj base)
  have hsub : L ⊆ disk.map Prod.fst := by
    intro x hx
    rw [hL, List.mem_map] at hx
    obtain ⟨k, hk, rfl⟩ := hx
    rw [List.mem_range] at hk
    exact (diskHas_iff_mem_map disk _).mp (hall k hk)
  have hsubF : L.toFinset ⊆ (disk.map Prod.fst).toFinset := by
    intro x hx
    rw [List.mem_toFinset] at hx ⊢
    exact hsub hx
  have hcard : L.length ≤ (disk.map Prod.fst).length := by
    calc L.length = L.toFinset.card := (List.toFinset_card_of_nodup hnodup).symm
    _ ≤ (disk.map Prod.fst).toFinset.card := Finset.card_le_card hsubF
    _ ≤ (disk.map Prod.fst).length := List.toFinset_card_le _
  rw [hL] at hcard
  simp at hcard

theorem findIndexLoop_spec (disk : List (String × String)) (name : Nat → String) :
    ∀ fuel i, (∃ k, k < fuel ∧ diskHas disk (name (i + k)) = false) →
      diskHas disk (name (findIndexLoop disk name fuel i)) = false ∧
      (∀ j, i ≤ j → j < findIndexLoop disk name fuel i → diskHas disk (name j) = true) ∧
      i ≤ findIndexLoop disk name fuel i := by
  intro fuel
  induction fuel with
  | zero =>
    intro i h
    obtain ⟨k, hk, -⟩ := h
    omega
  | succ fuel ih =>
    intro i h
    unfold findIndexLoop
    by_cases hhas : diskHas disk (name i) = true
    · rw [if_pos hhas]
      obtain ⟨k, hk, hfree⟩ := h
      have hk0 : k ≠ 0 := by
        intro h0
        rw [h0] at hfree
        simp at hfree
        rw [hfree] at hhas
        cases hhas
      obtain ⟨r1, r2, r3⟩ := ih (i + 1) ⟨k - 1, by omega, by
        have : i + 1 + (k - 1) = i + k := by omega
        rw [this]
        exact hfree⟩
      refine ⟨r1, ?_, by omega⟩
      intro j hij hj
      by_cases hji : j = i
      · rw [hji]; exact hhas
      · exact r2 j (by omega) hj
    · rw [if_neg hhas]
      refine ⟨by simpa using hhas, ?_, le_refl i⟩
      intro j hij hj
      omega

/-- The probing of `find_next_log_index` returns the smallest index whose
candidate log file name does not exist on disk. -/
theorem find_next_log_index_least (disk : List (String × String)) (owner repo : String)
    (pr_number : Nat) (local_folder : Option String) :
    diskHas disk (logFileName owner repo pr_number
      (find_next_log_index disk owner repo pr_number local_folder) local_folder) = false ∧
    ∀ j < find_next_log_index disk owner repo pr_number local_folder,
      diskHas disk (logFileName owner repo pr_number j local_folder) = true := by
  have hex : ∃ k, k < disk.length + 1 ∧
      diskHas disk (logFileName owner repo pr_number (0 + k) local_folder) = false := by
    by_cases hloc : (owner == "__local__" && repo == "local") = true
    · obtain ⟨k, hk, hfree⟩ := exists_free_index disk (safeFolderName local_folder)
      refine ⟨k, hk, ?_⟩
      rw [Nat.zero_add]
      unfold logFileName
      rw [if_pos hloc]
      exact hfree
    · obtain ⟨k, hk, hfree⟩ := exists_free_index disk
        (owner ++ "-" ++ repo ++ "-" ++ natRepr pr_number)
      refine ⟨k, hk, ?_⟩
      rw [Nat.zero_add]
      unfold logFileName
      rw [if_neg hloc]
      exact hfree
  obtain ⟨r1, r2, -⟩ := findIndexLoop_spec disk
    (fun i => logFileName owner repo pr_number i local_folder) (disk.length + 1) 0 hex
  exact ⟨r1, fun j hj => r2 j (Nat.zero_le j) hj⟩

theorem metadataLookup_filter_none (l : List ReviewMetadata) (owner repo : String)
    (pr_number : Nat) :
    (l.filter (fun m => !metaKeyMatch owner repo pr_number m)).find?
      (metaKeyMatch owner repo pr_number) = none := by
  rw [List.find?_eq_none]
  intro x hx
  have := (List.mem_filter.mp hx).2
  simp at this
  simp [this]

theorem write_log_eq (st : StoreState) (owner repo : String) (pr_number : Nat)
    (fetchedTitle : String) (mrow : ReviewMetadata)
    (hp : st.poisoned = false)
    (hlook : metadataLookup st owner repo pr_number = some mrow) :
    write_log st owner repo pr_number fetchedTitle = .ok { st with
      disk := diskWrite st.disk
        (logFileName owner repo pr_number mrow.log_file_index mrow.local_folder)
        (renderLog mrow
          (orderBy commentLE (st.comments.filter (commentKeyMatch owner repo pr_number)))
          fetchedTitle) } := by
  unfold write_log
  rw [if_neg (by simp [hp]), hlook]

theorem terminalOp_eq (st : StoreState) (owner repo : String) (pr_number : Nat)
    (header : String) (mrow : ReviewMetadata)
    (hp : st.poisoned = false)
    (hlook : metadataLookup st owner repo pr_number = some mrow) :
    terminalOp st owner repo pr_number header = .ok { st with
      metadata := st.metadata.filter (fun m => !metaKeyMatch owner repo pr_number m),
      disk := if diskHas st.disk
          (logFileName owner repo pr_number mrow.log_file_index mrow.local_folder) then
        diskWrite st.disk
          (logFileName owner repo pr_number mrow.log_file_index mrow.local_folder)
          (header ++ ((diskRead st.disk (logFileName owner repo pr_number
            mrow.log_file_index mrow.local_folder)).getD ""))
      else st.disk } := by
  unfold terminalOp
  rw [if_neg (by simp [hp]), hlook]

/-- C9 (counterexample): the claim says repeated abandon-then-start cycles
yield strictly increasing log-file indices; but a cycle in which the log
file was never written (no comment was added, so no log rewrite happened)
leaves nothing on disk, and the next `start_review` re-assigns index 0. -/
theorem log_index_cycle_counterexample :
    start_review (StoreState.mk [] [] [] false) "o" "r" 1 "sha" none none "t1"
      = .ok (ReviewMetadata.mk "o" "r" 1 "sha" none none "t1" 0,
        StoreState.mk [ReviewMetadata.mk "o" "r" 1 "sha" none none "t1" 0] [] [] false) ∧
    abandon_review (StoreState.mk [ReviewMetadata.mk "o" "r" 1 "sha" none none "t1" 0]
        [] [] false) "o" "r" 1 "t2"
      = .ok (StoreState.mk [] [] [] false) ∧
    start_review (StoreState.mk [] [] [] false) "o" "r" 1 "sha2" none none "t3"
      = .ok (ReviewMetadata.mk "o" "r" 1 "sha2" none none "t3" 0,
        StoreState.mk [ReviewMetadata.mk "o" "r" 1 "sha2" none none "t3" 0] [] [] false) ∧
    ¬((ReviewMetadata.mk "o" "r" 1 "sha" none none "t1" 0).log_file_index <
      (ReviewMetadata.mk "o" "r" 1 "sha2" none none "t3" 0).log_file_index) := by
  refine ⟨rfl, rfl, rfl, by decide⟩

/-- C9 (amended): on creation of a brand-new metadata row the assigned
`log_file_index` is the smallest index whose candidate log file name does
not exist on disk; consequently an abandon-then-start cycle whose log file
was actually written (here: one `write_log` before the abandon) assigns the
next cycle a strictly larger index, and the frozen log file of the
previous cycle is never overwritten by the new cycle's log writes. (A
cycle that never wrote its log file can reuse the index, as the
counterexample shows.) -/
theorem log_index_assignment :
    (∀ (st : StoreState) (owner repo : String) (pr_number : Nat)
      (commit_id : String) (body local_folder : Option String) (now : String)
      (m1 : ReviewMetadata) (st1 : StoreState),
      st.poisoned = false →
      metadataLookup st owner repo pr_number = none →
      start_review st owner repo pr_number commit_id body local_folder now
        = .ok (m1, st1) →
      diskHas st.disk
        (logFileName owner repo pr_number m1.log_file_index local_folder) = false ∧
      ∀ j < m1.log_file_index,
        diskHas st.disk (logFileName owner repo pr_number j local_folder) = true)
    ∧
    (∀ (st : StoreState) (owner repo : String) (pr_number : Nat)
      (c1 c2 : String) (b1 b2 lf : Option String) (t1 t2 t3 title1 title2 : String),
      st.poisoned = false →
      metadataLookup st owner repo pr_number = none →
      ∃ m1 st1 st2 st3 m2 st4 st5,
        start_review st owner repo pr_number c1 b1 lf t1 = .ok (m1, st1) ∧
        write_log st1 owner repo pr_number title1 = .ok st2 ∧
        abandon_review st2 owner repo pr_number t2 = .ok st3 ∧
        start_review st3 owner repo pr_number c2 b2 lf t3 = .ok (m2, st4) ∧
        m1.log_file_index < m2.log_file_index ∧
        write_log st4 owner repo pr_number title2 = .ok st5 ∧
        diskRead st5.disk (logFileName owner repo pr_number m1.log_file_index lf) =
          diskRead st4.disk (logFileName owner repo pr_number m1.log_file_index lf)) := by
  constructor
  · intro st owner repo pr_number commit_id body local_folder now m1 st1 hp hlook hcall
    obtain ⟨m1', st1', hcall', -, -, -, -, -, -, -, hidx, -, -, -, -, -⟩ :=
      start_review_fresh st owner repo pr_number commit_id body local_folder now hp hlook
    rw [hcall'] at hcall
    injection hcall with hcall
    have hm1 : m1 = m1' := by
      have := congrArg Prod.fst hcall
      exact this.symm
    rw [hm1, hidx]
    exact find_next_log_index_least st.disk owner repo pr_number local_folder
  · intro st owner repo pr_number c1 c2 b1 b2 lf t1 t2 t3 title1 title2 hp hlook
    obtain ⟨m1, st1, hcall1, -, -, -, -, -, -, hlf1, hidx1, hmeta1, -, hdisk1, hpois1,
      hlook1⟩ := start_review_fresh st owner repo pr_number c1 b1 lf t1 hp hlook
    have hpois1' : st1.poisoned = false := by rw [hpois1, hp]
    have hwl1 := write_log_eq st1 owner repo pr_number title1 m1 hpois1' hlook1
    set path1 := logFileName owner repo pr_number m1.log_file_index m1.local_folder
      with hpath1
    set content1 := renderLog m1
      (orderBy commentLE (st1.comments.filter (commentKeyMatch owner repo pr_number)))
      title1 with hcontent1
    set st2 : StoreState := { st1 with disk := diskWrite st1.disk path1 content1 }
      with hst2
    have hlook2 : metadataLookup st2 owner repo pr_number = some m1 := hlook1
    have hpois2 : st2.poisoned = false := hpois1'
    have hterm := terminalOp_eq st2 owner repo pr_number
      ("# REVIEW ABANDONED at " ++ t2 ++ "\n# Original review started at "
        ++ m1.created_at ++ "\n\n") m1 hpois2 hlook2
    have habandon : abandon_review st2 owner repo pr_number t2 = terminalOp st2 owner
        repo pr_number ("# REVIEW ABANDONED at " ++ t2
          ++ "\n# Original review started at " ++ m1.created_at ++ "\n\n") := by
      unfold abandon_review
      rw [hlook2]
    have hhas2 : diskHas st2.disk path1 = true := by
      rw [hst2]
      dsimp only
      rw [diskHas_diskWrite]
      simp
    set st3 : StoreState := { st2 with
      metadata := st2.metadata.filter (fun m => !metaKeyMatch owner repo pr_number m),
      disk := diskWrite st2.disk path1
        (("# REVIEW ABANDONED at " ++ t2 ++ "\n# Original review started at "
          ++ m1.created_at ++ "\n\n") ++ ((diskRead st2.disk path1).getD "")) }
      with hst3
    have habandon3 : abandon_review st2 owner repo pr_number t2 = .ok st3 := by
      rw [habandon, hterm, hst3]
      rw [if_pos hhas2]
    have hlook3 : metadataLookup st3 owner repo pr_number = none := by
      rw [hst3]
      unfold metadataLookup
      dsimp only
      exact metadataLookup_filter_none st2.metadata owner repo pr_number
    have hpois3 : st3.poisoned = false := hpois2
    obtain ⟨m2, st4, hcall2, -, -, -, -, -, -, hlf2, hidx2, hmeta4, -, hdisk4, hpois4,
      hlook4⟩ := start_review_fresh st3 owner repo pr_number c2 b2 lf t3 hpois3 hlook3
    have hpois4' : st4.poisoned = false := by rw [hpois4, hpois3]
    -- every index up to and including the first cycle's is on disk in st3
    have hfirst := find_next_log_index_least st.disk owner repo pr_number lf
    have hsecond := find_next_log_index_least st3.disk owner repo pr_number lf
    have hdisk3 : st3.disk = diskWrite st2.disk path1
        (("# REVIEW ABANDONED at " ++ t2 ++ "\n# Original review started at "
          ++ m1.created_at ++ "\n\n") ++ ((diskRead st2.disk path1).getD "")) := by
      rw [hst3]
    have hhas3 : ∀ j ≤ m1.log_file_index,
        diskHas st3.disk (logFileName owner repo pr_number j lf) = true := by
      intro j hj
      rw [hdisk3, diskHas_diskWrite]
      by_cases hje : j = m1.log_file_index
      · have : logFileName owner repo pr_number j lf = path1 := by
          rw [hpath1, hje, hlf1]
        rw [this]
        simp
      · have hjlt : j < m1.log_file_index := by omega
        have := hfirst.2 j (by rw [hidx1] at hjlt; exact hjlt)
        rw [hst2]
        dsimp only
        rw [diskHas_diskWrite]
        rw [← hdisk1] at this
        rw [this]
        simp
    have hlt : m1.log_file_index < m2.log_file_index := by
      by_contra hnlt
      have hle : m2.log_file_index ≤ m1.log_file_index := by omega
      have hhas := hhas3 m2.log_file_index hle
      have hfree := hsecond.1
      rw [← hidx2] at hfree
      rw [hhas] at hfree
      cases hfree
    have hwl2 := write_log_eq st4 owner repo pr_number title2 m2 hpois4' hlook4
    refine ⟨m1, st1, st2, st3, m2, st4, _, hcall1, ?_, habandon3, hcall2, hlt,
      hwl2, ?_⟩
    · rw [hwl1, hst2]
    · dsimp only
      apply diskRead_diskWrite_ne
      intro habs
      have : m1.log_file_index = m2.log_file_index := by
        rw [hlf2] at habs
        exact logFileName_inj owner repo pr_number lf habs
      omega

/-- Concrete instantiation of C9 (amended) on an empty store and empty
log directory. -/
theorem log_index_assignment_witness :
    ((StoreState.mk [] [] [] false).poisoned = false ∧
      metadataLookup (StoreState.mk [] [] [] false) "o" "r" 1 = none ∧
      start_review (StoreState.mk [] [] [] false) "o" "r" 1 "sha" none none "t1"
        = .ok (ReviewMetadata.mk "o" "r" 1 "sha" none none "t1" 0,
          StoreState.mk [ReviewMetadata.mk "o" "r" 1 "sha" none none "t1" 0] [] [] false) ∧
      diskHas (StoreState.mk [] [] [] false).disk
        (logFileName "o" "r" 1
          (ReviewMetadata.mk "o" "r" 1 "sha" none none "t1" 0).log_file_index none)
        = false ∧
      (∀ j < (ReviewMetadata.mk "o" "r" 1 "sha" none none "t1" 0).log_file_index,
        diskHas (StoreState.mk [] [] [] false).disk (logFileName "o" "r" 1 j none) = true)) ∧
    (∃ m1 st1 st2 st3 m2 st4 st5,
      start_review (StoreState.mk [] [] [] false) "o" "r" 1 "sha" none none "t1"
        = .ok (m1, st1) ∧
      write_log st1 "o" "r" 1 "Title" = .ok st2 ∧
      abandon_review st2 "o" "r" 1 "t2" = .ok st3 ∧
      start_review st3 "o" "r" 1 "sha2" none none "t3" = .ok (m2, st4) ∧
      m1.log_file_index < m2.log_file_index ∧
      write_log st4 "o" "r" 1 "Title" = .ok st5 ∧
      diskRead st5.disk (logFileName "o" "r" 1 m1.log_file_index none) =
        diskRead st4.disk (logFileName "o" "r" 1 m1.log_file_index none)) := by
  constructor
  · refine ⟨rfl, rfl, rfl, ?_⟩
    exact log_index_assignment.1 (StoreState.mk [] [] [] false) "o" "r" 1 "sha"
      none none "t1" (ReviewMetadata.mk "o" "r" 1 "sha" none none "t1" 0)
      (StoreState.mk [ReviewMetadata.mk "o" "r" 1 "sha" none none "t1" 0] [] [] false)
      rfl rfl rfl
  · exact log_index_assignment.2 (StoreState.mk [] [] [] false) "o" "r" 1 "sha" "sha2"
      none none none "t1" "t2" "t3" "Title" "Title" rfl rfl
